import Mathlib

/-!
Verification of `ModifierPullAll` (src/src/mongo/db/ops/modifier_pull_all.cpp),
the `$pullAll` update-operator modifier: remove every element equal to any
value in an explicit set from an array located by a dotted field path.

The modifier's own code (`init`, `prepare`, `apply`, `log`, the matcher
functor and `PreparedState`) is translated from the source.  Its external
collaborators (the mutable BSON tree, `FieldRef`, `fieldchecker`,
`pathsupport::findLongestPrefix`, the BSON value comparator) are not part of
the repository; they are modelled from the specification, and each such
definition says so in its doc comment.
-/

set_option autoImplicit false

/-- BSON-like typed values of the host document format: self-describing typed
values (numbers, strings, booleans, arrays, subdocuments).  Equality of two
`BSONValue`s is exact type-plus-value equality, with no cross-type coercion. -/
inductive BSONValue where
  | vint  : Int → BSONValue
  | vstr  : String → BSONValue
  | vbool : Bool → BSONValue
  | varr  : List BSONValue → BSONValue
  | vdoc  : List (String × BSONValue) → BSONValue

mutual

/-- Decidable equality for `BSONValue` (hand-rolled: the nesting through
`List` defeats the automatic derivation). -/
def BSONValue.decEq : (a b : BSONValue) → Decidable (a = b)
  | BSONValue.vint a, BSONValue.vint b =>
    if h : a = b then isTrue (by rw [h]) else isFalse (fun hh => h (BSONValue.vint.inj hh))
  | BSONValue.vstr a, BSONValue.vstr b =>
    if h : a = b then isTrue (by rw [h]) else isFalse (fun hh => h (BSONValue.vstr.inj hh))
  | BSONValue.vbool a, BSONValue.vbool b =>
    if h : a = b then isTrue (by rw [h]) else isFalse (fun hh => h (BSONValue.vbool.inj hh))
  | BSONValue.varr a, BSONValue.varr b =>
    match BSONValue.decEqList a b with
    | isTrue h => isTrue (by rw [h])
    | isFalse h => isFalse (fun hh => h (BSONValue.varr.inj hh))
  | BSONValue.vdoc a, BSONValue.vdoc b =>
    match BSONValue.decEqFields a b with
    | isTrue h => isTrue (by rw [h])
    | isFalse h => isFalse (fun hh => h (BSONValue.vdoc.inj hh))
  | BSONValue.vint _, BSONValue.vstr _ => isFalse nofun
  | BSONValue.vint _, BSONValue.vbool _ => isFalse nofun
  | BSONValue.vint _, BSONValue.varr _ => isFalse nofun
  | BSONValue.vint _, BSONValue.vdoc _ => isFalse nofun
  | BSONValue.vstr _, BSONValue.vint _ => isFalse nofun
  | BSONValue.vstr _, BSONValue.vbool _ => isFalse nofun
  | BSONValue.vstr _, BSONValue.varr _ => isFalse nofun
  | BSONValue.vstr _, BSONValue.vdoc _ => isFalse nofun
  | BSONValue.vbool _, BSONValue.vint _ => isFalse nofun
  | BSONValue.vbool _, BSONValue.vstr _ => isFalse nofun
  | BSONValue.vbool _, BSONValue.varr _ => isFalse nofun
  | BSONValue.vbool _, BSONValue.vdoc _ => isFalse nofun
  | BSONValue.varr _, BSONValue.vint _ => isFalse nofun
  | BSONValue.varr _, BSONValue.vstr _ => isFalse nofun
  | BSONValue.varr _, BSONValue.vbool _ => isFalse nofun
  | BSONValue.varr _, BSONValue.vdoc _ => isFalse nofun
  | BSONValue.vdoc _, BSONValue.vint _ => isFalse nofun
  | BSONValue.vdoc _, BSONValue.vstr _ => isFalse nofun
  | BSONValue.vdoc _, BSONValue.vbool _ => isFalse nofun
  | BSONValue.vdoc _, BSONValue.varr _ => isFalse nofun

/-- Decidable equality for lists of `BSONValue`. -/
def BSONValue.decEqList : (a b : List BSONValue) → Decidable (a = b)
  | [], [] => isTrue rfl
  | [], _ :: _ => isFalse nofun
  | _ :: _, [] => isFalse nofun
  | a :: as, b :: bs =>
    match BSONValue.decEq a b, BSONValue.decEqList as bs with
    | isTrue h1, isTrue h2 => isTrue (by rw [h1, h2])
    | isFalse h1, _ => isFalse (fun hh => h1 (List.cons.inj hh).1)
    | _, isFalse h2 => isFalse (fun hh => h2 (List.cons.inj hh).2)

/-- Decidable equality for field lists of subdocuments. -/
def BSONValue.decEqFields : (a b : List (String × BSONValue)) → Decidable (a = b)
  | [], [] => isTrue rfl
  | [], _ :: _ => isFalse nofun
  | _ :: _, [] => isFalse nofun
  | (n1, v1) :: as, (n2, v2) :: bs =>
    match String.decEq n1 n2, BSONValue.decEq v1 v2, BSONValue.decEqFields as bs with
    | isTrue h0, isTrue h1, isTrue h2 => isTrue (by rw [h0, h1, h2])
    | isFalse h0, _, _ =>
      isFalse (fun hh => h0 (congrArg Prod.fst (List.cons.inj hh).1))
    | _, isFalse h1, _ =>
      isFalse (fun hh => h1 (congrArg Prod.snd (List.cons.inj hh).1))
    | _, _, isFalse h2 => isFalse (fun hh => h2 (List.cons.inj hh).2)

end

instance : DecidableEq BSONValue := BSONValue.decEq

/-- A BSON element: a field name together with a typed value (the unit the
comparator and the `$pullAll` argument array are made of). -/
structure BSONElement where
  name : String
  value : BSONValue
deriving DecidableEq

/-- Error codes surfaced by the modifier and its collaborators
(mongo/base/error_codes.h). -/
inductive ErrorCode where
  | OK
  | BadValue
  | NonExistentPath
  | PathNotViable
  | InternalError
deriving DecidableEq

/-- A `Status`: an error code plus a reason string (mongo/base/status.h). -/
structure Status where
  code : ErrorCode
  reason : String
deriving DecidableEq

/-- The OK status. -/
def Status.OK : Status := ⟨ErrorCode.OK, ""⟩

/-- `Status::isOK()`. -/
def Status.isOK (s : Status) : Bool := decide (s.code = ErrorCode.OK)

/-- First value of the first field with the given name (mutable BSON documents
look fields up front-to-back). -/
def lookupField (p : String) : List (String × BSONValue) → Option BSONValue
  | [] => none
  | kv :: rest => if kv.1 = p then some kv.2 else lookupField p rest

/-- Rewrite the value of the first field with the given name, in place. -/
def modifyField (g : BSONValue → BSONValue) (p : String) :
    List (String × BSONValue) → List (String × BSONValue)
  | [] => []
  | kv :: rest =>
    if kv.1 = p then (kv.1, g kv.2) :: rest else kv :: modifyField g p rest

/-- Rewrite the n-th entry of a list in place (identity when out of range). -/
def modifyList (g : BSONValue → BSONValue) : Nat → List BSONValue → List BSONValue
  | _, [] => []
  | 0, x :: xs => g x :: xs
  | n + 1, x :: xs => x :: modifyList g n xs

/-- Digits-only parse of a character list into a number. -/
def parseNatAux : List Char → Nat → Option Nat
  | [], acc => some acc
  | c :: cs, acc =>
    if '0' ≤ c ∧ c ≤ '9' then parseNatAux cs (acc * 10 + (c.toNat - 48))
    else none

/-- Numeric path component: a nonempty all-digit part, as a number. -/
def strToNat? (s : String) : Option Nat :=
  match s.data with
  | [] => none
  | cs => parseNatAux cs 0

/-- Child of a tree node under one path part: field lookup in a subdocument,
numeric-index lookup in an array, nothing under a scalar. -/
def getChild (p : String) : BSONValue → Option BSONValue
  | BSONValue.vdoc fs => lookupField p fs
  | BSONValue.varr vs => (strToNat? p).bind (fun n => vs.get? n)
  | _ => none

/-- Value reached from a node by following a list of path parts. -/
def getValueAt : List String → BSONValue → Option BSONValue
  | [], v => some v
  | p :: ps, v => (getChild p v).bind (getValueAt ps)

/-- Rewrite the value reached by a list of path parts, in place (identity when
the path does not lead anywhere). -/
def modifyAt (f : BSONValue → BSONValue) : List String → BSONValue → BSONValue
  | [], doc => f doc
  | p :: ps, doc =>
    match doc with
    | BSONValue.vdoc fs => BSONValue.vdoc (modifyField (modifyAt f ps) p fs)
    | BSONValue.varr vs =>
      match strToNat? p with
      | some n => BSONValue.varr (modifyList (modifyAt f ps) n vs)
      | none => BSONValue.varr vs
    | other => other

/-- Whether the node's type is Array. -/
def BSONValue.isArray : BSONValue → Bool
  | BSONValue.varr _ => true
  | _ => false

/-- The children of an array node (empty for non-arrays). -/
def BSONValue.arrayElems : BSONValue → List BSONValue
  | BSONValue.varr vs => vs
  | _ => []

/-!
Stable element handles.  The mutable BSON tree hands out element references
with stable identity: removing one child of an array never invalidates a held
reference to a sibling (spec section 9 makes this a hard requirement).  We
model a reference to the i-th child of an array as the tag `i` of the child in
the id-tagged view of the array, and `Element::remove()` as deletion of the
pair carrying that tag.
-/

/-- Tag each list entry with its identity (its position at tagging time). -/
def withIds : Nat → List BSONValue → List (Nat × BSONValue)
  | _, [] => []
  | k, v :: vs => (k, v) :: withIds (k + 1) vs

/-- Left-to-right scan of tagged children: the ids of those satisfying `P`,
in scan order (the source's `while (elem.ok())` loop collecting matches). -/
def scanMatches (P : Nat × BSONValue → Bool) : List (Nat × BSONValue) → List Nat
  | [] => []
  | q :: rest => if P q then q.1 :: scanMatches P rest else scanMatches P rest

/-- Remove the children with the given ids, one at a time, in the order given
(the source's loop calling `remove()` on each captured handle). -/
def removeIds (ids : List Nat) (l : List (Nat × BSONValue)) : List (Nat × BSONValue) :=
  ids.foldl (fun acc i => acc.filter (fun q => q.1 != i)) l

/-!
FieldPath (`FieldRef`), the field checker and the path resolver.  These live
outside the repository (mongo/db/field_ref.h, mongo/db/ops/field_checker.h,
mongo/db/ops/path_support.h); they are modelled from the specification.
-/

/-- Split a character list at dots, accumulating the current (reversed) part. -/
def splitParts (acc : List Char) : List Char → List String
  | [] => [String.mk acc.reverse]
  | c :: cs =>
    if c = '.' then String.mk acc.reverse :: splitParts [] cs
    else splitParts (c :: acc) cs

/-- Modelled from the spec: a `FieldRef` is an ordered sequence of dotted
field-path parts. -/
structure FieldRef where
  parts : List String
deriving DecidableEq

/-- Modelled from the spec: `FieldRef::parse` breaks a field name into its
dotted components. -/
def FieldRef.parse (s : String) : FieldRef := ⟨splitParts [] s.toList⟩

/-- `FieldRef::numParts`. -/
def FieldRef.numParts (fr : FieldRef) : Nat := fr.parts.length

/-- `FieldRef::setPart`: rewrite one part in place. -/
def FieldRef.setPart (fr : FieldRef) (i : Nat) (s : String) : FieldRef :=
  ⟨fr.parts.set i s⟩

/-- `FieldRef::dottedField`: the full dotted path. -/
def FieldRef.dottedField (fr : FieldRef) : String :=
  String.intercalate "." fr.parts

/-- Modelled from the spec: `fieldchecker::isUpdatable` fails with a
malformed-path error if the path is empty or any part is empty. -/
def fieldchecker.isUpdatable (fr : FieldRef) : Status :=
  if fr.parts.isEmpty || fr.parts.any (fun p => p == "") then
    ⟨ErrorCode.BadValue, "malformed path"⟩
  else Status.OK

/-- Modelled from the spec: `fieldchecker::isPositional` reports the index at
which the positional placeholder part occurs; the out-parameter keeps its
initial value 0 when no positional part is present (the spec encodes
"no positional" as index 0). -/
def fieldchecker.positionalIndex (fr : FieldRef) : Nat :=
  match fr.parts.findIdx? (fun p => p == "$") with
  | some i => i
  | none => 0

/-- Outcome of `pathsupport::findLongestPrefix`: the full path or a viable
partial prefix was found (status OK, with the resolved depth, the resolved
parts and the resolved element), a prefix was found but the next part cannot
be traversed through the found node (status `PathNotViable`, same outputs),
or not even the first part exists (status `NonExistentPath`). -/
inductive ResolveOutcome where
  | found (idx : Nat) (ref : List String) (value : BSONValue)
  | notViable (idx : Nat) (ref : List String) (value : BSONValue)
  | nonExistent
deriving DecidableEq

/-- Outcome when the walk cannot go below `cur` at part `p`: nothing was
found at all, a viable partial prefix (a subdocument, or an array addressed
by a numeric part), or a wrong-typed node in the way. -/
def resolveStuck (consumed : List String) (p : String) (cur : BSONValue) :
    ResolveOutcome :=
  if consumed.isEmpty then ResolveOutcome.nonExistent
  else
    match cur with
    | BSONValue.vdoc _ => ResolveOutcome.found (consumed.length - 1) consumed cur
    | BSONValue.varr _ =>
      if (strToNat? p).isSome then ResolveOutcome.found (consumed.length - 1) consumed cur
      else ResolveOutcome.notViable (consumed.length - 1) consumed cur
    | _ => ResolveOutcome.notViable (consumed.length - 1) consumed cur

/-- One step of the resolver walk: `consumed` are the parts already resolved
(leading to `cur`), the third argument the parts still to resolve. -/
def resolveFrom (consumed : List String) (cur : BSONValue) :
    List String → ResolveOutcome
  | [] => ResolveOutcome.found (consumed.length - 1) consumed cur
  | p :: rest =>
    match getChild p cur with
    | some c => resolveFrom (consumed ++ [p]) c rest
    | none => resolveStuck consumed p cur

/-- Modelled from the spec: `pathsupport::findLongestPrefix` walks the
document along the path and reports the longest existing prefix,
distinguishing "fully or partially found", "found a wrong-typed node in the
way" and "non-existent path". -/
def findLongestPrefix (fr : FieldRef) (root : BSONValue) : ResolveOutcome :=
  if fr.parts.isEmpty then ResolveOutcome.nonExistent
  else resolveFrom [] root fr.parts

/-- Modelled from the spec: `mutablebson::Element::compareWithBSONElement`,
the host's standard typed-value comparison.  Only its equality facet (result
0) is modelled: exact type-plus-value equality with no cross-type coercion,
comparing field names only when `considerFieldName` is set; any inequality is
collapsed to the nonzero result 1. -/
def compareWithBSONElement (what elem : BSONElement) (considerFieldName : Bool) : Int :=
  if considerFieldName then
    if what.name = elem.name ∧ what.value = elem.value then 0 else 1
  else
    if what.value = elem.value then 0 else 1

/-- The matcher functor from the source's anonymous namespace: holds a mutable
element `what` and tests a target `elem` for equality, not considering field
names (`compareWithBSONElement(elem, false) == 0`). -/
def mutableElementEqualsBSONElement (what elem : BSONElement) : Bool :=
  compareWithBSONElement what elem false == 0

/-- `ExecInfo` (mongo/db/ops/modifier_interface.h): the caller-owned output of
`prepare`.  `fieldRef` models the `fieldRef[0]` slot, `none` while unset. -/
structure ExecInfo where
  noOp : Bool
  inPlace : Bool
  fieldRef : Option FieldRef
deriving DecidableEq

/-- `ModifierPullAll::PreparedState`: per-document transient state.
`pathFoundElement` is modelled by the pair `pathFoundOk` (whether the element
reference is valid, i.e. not `doc.end()`) and `pathFoundRef` (the stable
reference: the resolved parts leading to the element). -/
structure PreparedState where
  pathFoundIndex : Nat := 0
  pathFoundOk : Bool := false
  pathFoundRef : List String := []
  pathPositionalPart : String := ""
  applyCalled : Bool := false
  elementsToRemove : List Nat := []
deriving DecidableEq

/-- The `ModifierPullAll` orchestrator: the parsed field path, the index of
the positional part (0 when absent) and the value set to remove. -/
structure ModifierPullAll where
  fieldRef : FieldRef
  positionalPathIndex : Nat
  elementsToFind : List BSONElement
deriving DecidableEq

/-- `ModifierPullAll::init`: parse and validate the field name, record the
positional index, require an array argument and store its elements (array
children carry their index as field name). -/
def ModifierPullAll.init (modExpr : BSONElement) : Status × ModifierPullAll :=
  let fr := FieldRef.parse modExpr.name
  let m0 : ModifierPullAll := ⟨fr, 0, []⟩
  let status := fieldchecker.isUpdatable fr
  if status.isOK = false then (status, m0)
  else
    let m1 : ModifierPullAll := ⟨fr, fieldchecker.positionalIndex fr, []⟩
    match modExpr.value with
    | BSONValue.varr vs =>
      (Status.OK, ⟨fr, fieldchecker.positionalIndex fr,
        (withIds 0 vs).map (fun q => ⟨toString q.1, q.2⟩)⟩)
    | _ => (⟨ErrorCode.BadValue, "$pullAll requires an array argument"⟩, m1)

/-- The scan of the target array's children (`prepare`'s `while (elem.ok())`
loop): collect, left to right, the ids of the children some member of
`elementsToFind` matches. -/
def collectToRemove (toFind : List BSONElement) (children : List BSONValue) : List Nat :=
  scanMatches
    (fun q => toFind.any (fun t => mutableElementEqualsBSONElement ⟨toString q.1, q.2⟩ t))
    (withIds 0 children)

/-- The part of `ModifierPullAll::prepare` after positional binding: resolve
the path, classify the outcome, scan the target array, set the `ExecInfo`
flags, and record the field reference on every path that reaches the end of
the function (the two `BadValue` returns leave `execInfo` untouched). -/
def ModifierPullAll.prepareResolve (m : ModifierPullAll) (root : BSONValue)
    (execInfo : ExecInfo) (ps : PreparedState) :
    Status × ModifierPullAll × PreparedState × ExecInfo :=
  match findLongestPrefix m.fieldRef root with
  | ResolveOutcome.found idx ref v =>
    let ps := { ps with pathFoundIndex := idx, pathFoundOk := true, pathFoundRef := ref }
    if v.isArray = false then
      (⟨ErrorCode.BadValue, "can only $pull* from arrays"⟩, m, ps, execInfo)
    else if (v.arrayElems).isEmpty then
      (Status.OK, m, ps,
        { execInfo with noOp := true, inPlace := true, fieldRef := some m.fieldRef })
    else
      let ids := collectToRemove m.elementsToFind v.arrayElems
      let ps := { ps with elementsToRemove := ids }
      if ids.isEmpty then
        (Status.OK, m, ps,
          { execInfo with noOp := true, inPlace := true, fieldRef := some m.fieldRef })
      else
        (Status.OK, m, ps, { execInfo with fieldRef := some m.fieldRef })
  | ResolveOutcome.notViable idx ref _v =>
    let ps := { ps with pathFoundIndex := idx, pathFoundOk := true, pathFoundRef := ref }
    (⟨ErrorCode.PathNotViable, "cannot use the part to traverse the element"⟩, m, ps,
      { execInfo with noOp := true, inPlace := true, fieldRef := some m.fieldRef })
  | ResolveOutcome.nonExistent =>
    (Status.OK, m, ps,
      { execInfo with noOp := true, inPlace := true, fieldRef := some m.fieldRef })

/-- `ModifierPullAll::prepare`: reset the per-document `PreparedState`, bind
the positional part when one is present (failing with `BadValue` when the
matched field is missing), then resolve and scan. -/
def ModifierPullAll.prepare (m : ModifierPullAll) (root : BSONValue)
    (matchedField : String) (execInfo : ExecInfo) :
    Status × ModifierPullAll × PreparedState × ExecInfo :=
  let ps : PreparedState := {}
  if m.positionalPathIndex ≠ 0 then
    if matchedField = "" then
      (⟨ErrorCode.BadValue, "matched field not provided"⟩, m, ps, execInfo)
    else
      ModifierPullAll.prepareResolve
        { m with fieldRef := m.fieldRef.setPart m.positionalPathIndex matchedField }
        root execInfo { ps with pathPositionalPart := matchedField }
  else
    ModifierPullAll.prepareResolve m root execInfo ps

/-- `ModifierPullAll::apply`: set the `applyCalled` flag, then remove every
captured element, in the order captured, from its parent; the flag is only
written, never consulted.  Returns OK unconditionally. -/
def ModifierPullAll.apply (_m : ModifierPullAll) (ps : PreparedState)
    (doc : BSONValue) : Status × PreparedState × BSONValue :=
  let ps' := { ps with applyCalled := true }
  (Status.OK, ps',
    modifyAt
      (fun v =>
        match v with
        | BSONValue.varr vs =>
          BSONValue.varr ((removeIds ps.elementsToRemove (withIds 0 vs)).map (fun q => q.2))
        | w => w)
      ps.pathFoundRef doc)

/-- `ModifierPullAll::log`: decide `pathExists` (valid element reference and
resolved depth equal to the full part count), then append under the log root
a `$set` of the full dotted path to the current value at the resolved
reference, or an `$unset` of the full dotted path to boolean true. -/
def ModifierPullAll.log (m : ModifierPullAll) (ps : PreparedState)
    (doc : BSONValue) (logRoot : List (String × BSONValue)) :
    Status × List (String × BSONValue) :=
  let pathExists := ps.pathFoundOk && (ps.pathFoundIndex == m.fieldRef.numParts - 1)
  if pathExists then
    match getValueAt ps.pathFoundRef doc with
    | some v =>
      (Status.OK, logRoot ++ [("$set", BSONValue.vdoc [(m.fieldRef.dottedField, v)])])
    | none => (⟨ErrorCode.InternalError, "cannot create details"⟩, logRoot)
  else
    (Status.OK, logRoot ++ [("$unset", BSONValue.vdoc [(m.fieldRef.dottedField, BSONValue.vbool true)])])

/-- One document's processing by the framework: `prepare`, and when it
succeeds `apply` then `log` (on a failed `prepare` the document and the log
are untouched).  Returns the final status, the orchestrator as it stands
after the document, the document and the log. -/
def ModifierPullAll.processOne (m : ModifierPullAll) (root : BSONValue)
    (matchedField : String) (execInfo : ExecInfo)
    (logRoot : List (String × BSONValue)) :
    Status × ModifierPullAll × BSONValue × List (String × BSONValue) :=
  let r := ModifierPullAll.prepare m root matchedField execInfo
  if r.1.isOK then
    let a := ModifierPullAll.apply r.2.1 r.2.2.1 root
    let lg := ModifierPullAll.log r.2.1 a.2.1 a.2.2 logRoot
    (lg.1, r.2.1, a.2.2, lg.2)
  else (r.1, r.2.1, root, logRoot)

/-!
Lemmas: stable-identity removal computes an order-preserving filter.
-/

theorem map_snd_withIds (k : Nat) (vs : List BSONValue) :
    (withIds k vs).map (fun q => q.2) = vs := by
  induction vs generalizing k with
  | nil => rfl
  | cons v vs ih => simp [withIds, ih]

theorem removeIds_nil (l : List (Nat × BSONValue)) : removeIds [] l = l := rfl

theorem removeIds_cons (i : Nat) (ids : List Nat) (l : List (Nat × BSONValue)) :
    removeIds (i :: ids) l = removeIds ids (l.filter (fun q => q.1 != i)) := rfl

theorem removeIds_eq_filter (ids : List Nat) (l : List (Nat × BSONValue)) :
    removeIds ids l = l.filter (fun q => !(ids.contains q.1)) := by
  induction ids generalizing l with
  | nil =>
    rw [removeIds_nil]
    exact (List.filter_eq_self.mpr (fun a _ => by simp [List.contains])).symm
  | cons i ids ih =>
    rw [removeIds_cons, ih, List.filter_filter]
    refine List.filter_congr (fun q _ => ?_)
    simp only [List.contains_cons, Bool.not_or, bne]
    exact (Bool.and_comm _ _).symm

theorem fst_mem_withIds (k : Nat) (vs : List BSONValue) (q : Nat × BSONValue)
    (h : q ∈ withIds k vs) : k ≤ q.1 := by
  induction vs generalizing k with
  | nil => cases h
  | cons v vs ih =>
    cases h with
    | head => exact Nat.le_refl k
    | tail _ h' => exact Nat.le_of_succ_le (ih (k + 1) h')

theorem mem_scanMatches (P : Nat × BSONValue → Bool) (l : List (Nat × BSONValue))
    (x : Nat) (h : x ∈ scanMatches P l) : ∃ q ∈ l, q.1 = x := by
  induction l with
  | nil => cases h
  | cons q l ih =>
    by_cases hq : P q = true
    · rw [scanMatches, if_pos hq] at h
      cases h with
      | head => exact ⟨q, List.mem_cons_self q l, rfl⟩
      | tail _ h' =>
        obtain ⟨r, hr, hx⟩ := ih h'
        exact ⟨r, List.mem_cons_of_mem q hr, hx⟩
    · rw [scanMatches, if_neg hq] at h
      obtain ⟨r, hr, hx⟩ := ih h
      exact ⟨r, List.mem_cons_of_mem q hr, hx⟩

theorem mem_scanMatches_withIds_ge (P : Nat × BSONValue → Bool) (k : Nat)
    (vs : List BSONValue) (x : Nat) (h : x ∈ scanMatches P (withIds k vs)) : k ≤ x := by
  obtain ⟨q, hq, hx⟩ := mem_scanMatches P _ x h
  exact hx ▸ fst_mem_withIds k vs q hq

theorem filter_scan_withIds (Q : BSONValue → Bool) (vs : List BSONValue) (k : Nat) :
    ((withIds k vs).filter
        (fun q => !((scanMatches (fun r => Q r.2) (withIds k vs)).contains q.1))).map
      (fun q => q.2) = vs.filter (fun v => !(Q v)) := by
  induction vs generalizing k with
  | nil => rfl
  | cons v vs ih =>
    have hne : ∀ q ∈ withIds (k + 1) vs,
        ((q.1 == k : Bool) = false) := by
      intro q hq
      have := fst_mem_withIds (k + 1) vs q hq
      simp only [beq_eq_false_iff_ne, ne_eq]
      omega
    by_cases hv : Q v = true
    · have hscan : scanMatches (fun r => Q r.2) (withIds k (v :: vs)) =
          k :: scanMatches (fun r => Q r.2) (withIds (k + 1) vs) := by
        simp [withIds, scanMatches, hv]
      rw [withIds] at *
      rw [hscan]
      have hhead : (!((k :: scanMatches (fun r => Q r.2) (withIds (k + 1) vs)).contains
          ((k, v) : Nat × BSONValue).1)) = false := by
        simp [List.contains_cons]
      rw [List.filter_cons, hhead]
      simp only [Bool.false_eq_true, if_false]
      have hcongr : (withIds (k + 1) vs).filter
            (fun q => !((k :: scanMatches (fun r => Q r.2) (withIds (k + 1) vs)).contains q.1)) =
          (withIds (k + 1) vs).filter
            (fun q => !((scanMatches (fun r => Q r.2) (withIds (k + 1) vs)).contains q.1)) := by
        refine List.filter_congr (fun q hq => ?_)
        simp only [List.contains_cons, hne q hq, Bool.false_or]
      rw [hcongr, ih]
      simp [List.filter_cons, hv]
    · have hv' : Q v = false := by revert hv; cases Q v <;> simp
      have hscan : scanMatches (fun r => Q r.2) ((k, v) :: withIds (k + 1) vs) =
          scanMatches (fun r => Q r.2) (withIds (k + 1) vs) := by
        simp [scanMatches, hv']
      rw [withIds] at *
      rw [hscan]
      have hhead : (!((scanMatches (fun r => Q r.2) (withIds (k + 1) vs)).contains
          ((k, v) : Nat × BSONValue).1)) = true := by
        simp only [Bool.not_eq_true']
        by_contra hc
        have hk : k ∈ scanMatches (fun r => Q r.2) (withIds (k + 1) vs) := by
          have := Bool.not_eq_false _ ▸ hc
          exact List.elem_iff.mp (by simpa [List.contains] using this)
        have := mem_scanMatches_withIds_ge _ (k + 1) vs k hk
        omega
      rw [List.filter_cons, hhead]
      simp only [if_true]
      rw [List.map_cons]
      rw [ih]
      simp [List.filter_cons, hv']

theorem removeIds_scan_withIds (Q : BSONValue → Bool) (vs : List BSONValue) :
    (removeIds (scanMatches (fun r => Q r.2) (withIds 0 vs)) (withIds 0 vs)).map
      (fun q => q.2) = vs.filter (fun v => !(Q v)) := by
  rw [removeIds_eq_filter]
  exact filter_scan_withIds Q vs 0

/-!
Lemmas: the matcher compares value-plus-type only, and the scan's removal
list is the list of ids of matching children.
-/

theorem mutableElementEqualsBSONElement_eq (what elem : BSONElement) :
    mutableElementEqualsBSONElement what elem = decide (what.value = elem.value) := by
  by_cases h : what.value = elem.value <;>
    simp [mutableElementEqualsBSONElement, compareWithBSONElement, h]

/-- The membership test the collected removal list is built from: the child's
value equals the value of some member of the value set. -/
def matchesSet (toFind : List BSONElement) (v : BSONValue) : Bool :=
  toFind.any (fun t => decide (v = t.value))

theorem collectToRemove_eq (toFind : List BSONElement) (children : List BSONValue) :
    collectToRemove toFind children =
      scanMatches (fun q => matchesSet toFind q.2) (withIds 0 children) := by
  unfold collectToRemove
  congr 1
  funext q
  unfold matchesSet
  congr 1
  funext t
  exact mutableElementEqualsBSONElement_eq ⟨toString q.1, q.2⟩ t

/-!
Lemmas: the resolver returns a valid reference to the resolved element, and
in-place modification at a valid reference is observed by reads at it.
-/

theorem getValueAt_append (xs ys : List String) (v : BSONValue) :
    getValueAt (xs ++ ys) v = (getValueAt xs v).bind (getValueAt ys) := by
  induction xs generalizing v with
  | nil => simp [getValueAt]
  | cons p ps ih =>
    simp only [List.cons_append, getValueAt]
    cases getChild p v with
    | none => rfl
    | some c => exact ih c

theorem resolveFrom_nil (consumed : List String) (cur : BSONValue) :
    resolveFrom consumed cur [] =
      ResolveOutcome.found (consumed.length - 1) consumed cur := rfl

theorem resolveFrom_cons_some (consumed : List String) (cur : BSONValue)
    (p : String) (rest : List String) (c : BSONValue)
    (h : getChild p cur = some c) :
    resolveFrom consumed cur (p :: rest) = resolveFrom (consumed ++ [p]) c rest := by
  rw [resolveFrom, h]

theorem resolveFrom_cons_none (consumed : List String) (cur : BSONValue)
    (p : String) (rest : List String) (h : getChild p cur = none) :
    resolveFrom consumed cur (p :: rest) = resolveStuck consumed p cur := by
  rw [resolveFrom, h]

theorem resolveFrom_found_getValueAt (root : BSONValue) :
    ∀ (rest consumed : List String) (cur : BSONValue) (i : Nat) (ref : List String)
      (w : BSONValue),
      getValueAt consumed root = some cur →
      resolveFrom consumed cur rest = ResolveOutcome.found i ref w →
      getValueAt ref root = some w := by
  intro rest
  induction rest with
  | nil =>
    intro consumed cur i ref w hc hr
    rw [resolveFrom_nil] at hr
    cases hr
    exact hc
  | cons p rest ih =>
    intro consumed cur i ref w hc hr
    cases hchild : getChild p cur with
    | some c =>
      rw [resolveFrom_cons_some consumed cur p rest c hchild] at hr
      refine ih (consumed ++ [p]) c i ref w ?_ hr
      rw [getValueAt_append, hc]
      simpa [getValueAt] using hchild
    | none =>
      rw [resolveFrom_cons_none consumed cur p rest hchild] at hr
      unfold resolveStuck at hr
      by_cases he : consumed.isEmpty
      · rw [if_pos he] at hr; cases hr
      · rw [if_neg he] at hr
        cases cur with
        | vdoc fs => cases hr; exact hc
        | varr vs =>
          by_cases hn : (strToNat? p).isSome
          · rw [if_pos hn] at hr; cases hr; exact hc
          · rw [if_neg hn] at hr; cases hr
        | vint a => cases hr
        | vstr a => cases hr
        | vbool a => cases hr

theorem resolveFrom_found_ref :
    ∀ (rest consumed : List String) (cur : BSONValue) (i : Nat) (ref : List String)
      (w : BSONValue),
      (consumed = [] → rest ≠ []) →
      resolveFrom consumed cur rest = ResolveOutcome.found i ref w →
      ∃ j, j ≤ rest.length ∧ ref = consumed ++ rest.take j ∧
        i + 1 = consumed.length + j := by
  intro rest
  induction rest with
  | nil =>
    intro consumed cur i ref w hne hr
    rw [resolveFrom_nil] at hr
    injection hr with h1 h2 h3
    refine ⟨0, Nat.zero_le 0, by simp [h2], ?_⟩
    have hcons : consumed ≠ [] := by
      intro hc; exact (hne hc) rfl
    have : 0 < consumed.length := List.length_pos.mpr hcons
    omega
  | cons p rest ih =>
    intro consumed cur i ref w hne hr
    cases hchild : getChild p cur with
    | some c =>
      rw [resolveFrom_cons_some consumed cur p rest c hchild] at hr
      obtain ⟨j, hj, href, hi⟩ := ih (consumed ++ [p]) c i ref w (by simp) hr
      refine ⟨j + 1, by simpa using hj, ?_, ?_⟩
      · rw [href, List.take_succ_cons, List.append_assoc]
        rfl
      · simp only [List.length_append, List.length_singleton] at hi ⊢
        omega
    | none =>
      rw [resolveFrom_cons_none consumed cur p rest hchild] at hr
      unfold resolveStuck at hr
      by_cases he : consumed.isEmpty
      · rw [if_pos he] at hr; cases hr
      · rw [if_neg he] at hr
        have hcons : consumed ≠ [] := by
          intro hc; rw [hc] at he; exact he rfl
        have hlen : 0 < consumed.length := List.length_pos.mpr hcons
        cases cur with
        | vdoc fs =>
          injection hr with h1 h2 h3
          exact ⟨0, Nat.zero_le _, by simp [h2], by omega⟩
        | varr vs =>
          by_cases hn : (strToNat? p).isSome
          · rw [if_pos hn] at hr
            injection hr with h1 h2 h3
            exact ⟨0, Nat.zero_le _, by simp [h2], by omega⟩
          · rw [if_neg hn] at hr; cases hr
        | vint a => cases hr
        | vstr a => cases hr
        | vbool a => cases hr

theorem findLongestPrefix_found (fr : FieldRef) (root : BSONValue) (i : Nat)
    (ref : List String) (w : BSONValue)
    (h : findLongestPrefix fr root = ResolveOutcome.found i ref w) :
    getValueAt ref root = some w ∧ ref = fr.parts.take (i + 1) ∧ i < fr.numParts := by
  unfold findLongestPrefix at h
  by_cases he : fr.parts.isEmpty
  · rw [if_pos he] at h; cases h
  · rw [if_neg he] at h
    have hne : fr.parts ≠ [] := by
      intro hc; rw [hc] at he; exact he rfl
    have h1 := resolveFrom_found_getValueAt root fr.parts [] root i ref w rfl h
    obtain ⟨j, hj, href, hi⟩ := resolveFrom_found_ref fr.parts [] root i ref w
      (fun _ => hne) h
    simp only [List.nil_append, List.length_nil, Nat.zero_add] at href hi
    refine ⟨h1, ?_, ?_⟩
    · rw [href, hi]
    · unfold FieldRef.numParts
      omega

theorem lookupField_modifyField (g : BSONValue → BSONValue) (p : String) :
    ∀ fs : List (String × BSONValue),
      lookupField p (modifyField g p fs) = (lookupField p fs).map g := by
  intro fs
  induction fs with
  | nil => rfl
  | cons kv rest ih =>
    by_cases h : kv.1 = p
    · rw [modifyField, if_pos h, lookupField, lookupField, if_pos h, if_pos h]
      rfl
    · rw [modifyField, if_neg h, lookupField, lookupField, if_neg h, if_neg h]
      exact ih

theorem get?_modifyList (g : BSONValue → BSONValue) :
    ∀ (n : Nat) (vs : List BSONValue),
      (modifyList g n vs).get? n = (vs.get? n).map g := by
  intro n
  induction n with
  | zero => intro vs; cases vs <;> rfl
  | succ n ih => intro vs; cases vs with
    | nil => rfl
    | cons v vs => exact ih vs

theorem getChild_modifyAt (f : BSONValue → BSONValue) (p : String)
    (ps : List String) (doc c : BSONValue) (h : getChild p doc = some c) :
    getChild p (modifyAt f (p :: ps) doc) = some (modifyAt f ps c) := by
  cases doc with
  | vdoc fs =>
    rw [modifyAt]
    simp only [getChild] at h ⊢
    rw [lookupField_modifyField, h]
    rfl
  | varr vs =>
    simp only [getChild] at h
    cases hn : strToNat? p with
    | none => rw [hn] at h; cases h
    | some n =>
      rw [hn] at h
      rw [modifyAt, hn]
      simp only [getChild]
      rw [hn]
      simp only [Option.some_bind] at h ⊢
      rw [get?_modifyList, h]
      rfl
  | vint a => cases h
  | vstr a => cases h
  | vbool a => cases h

theorem getValueAt_modifyAt (f : BSONValue → BSONValue) :
    ∀ (ref : List String) (doc v : BSONValue),
      getValueAt ref doc = some v →
      getValueAt ref (modifyAt f ref doc) = some (f v) := by
  intro ref
  induction ref with
  | nil =>
    intro doc v h
    cases h
    rfl
  | cons p ps ih =>
    intro doc v h
    rw [getValueAt] at h
    cases hc : getChild p doc with
    | none => rw [hc] at h; cases h
    | some c =>
      rw [hc] at h
      simp only [Option.some_bind] at h
      rw [getValueAt, getChild_modifyAt f p ps doc c hc]
      simp only [Option.some_bind]
      exact ih c v h

/-!
Characterization of `prepare`: positional binding, then one lemma for each
resolver outcome.
-/

/-- The field path as `prepare` leaves it: bound at the positional index when
one is present. -/
def bindM (m : ModifierPullAll) (mf : String) : ModifierPullAll :=
  if m.positionalPathIndex ≠ 0 then
    { m with fieldRef := m.fieldRef.setPart m.positionalPathIndex mf }
  else m

/-- The fresh per-document state as `prepare` passes it on: positional part
recorded when one is present. -/
def bindPS (m : ModifierPullAll) (mf : String) : PreparedState :=
  if m.positionalPathIndex ≠ 0 then { pathPositionalPart := mf } else {}

theorem prepare_early (m : ModifierPullAll) (root : BSONValue) (mf : String)
    (ei : ExecInfo) (h1 : m.positionalPathIndex ≠ 0) (h2 : mf = "") :
    ModifierPullAll.prepare m root mf ei =
      (⟨ErrorCode.BadValue, "matched field not provided"⟩, m, {}, ei) := by
  unfold ModifierPullAll.prepare
  rw [if_pos h1, if_pos h2]

theorem prepare_eq_resolve (m : ModifierPullAll) (root : BSONValue) (mf : String)
    (ei : ExecInfo) (h0 : m.positionalPathIndex = 0 ∨ mf ≠ "") :
    ModifierPullAll.prepare m root mf ei =
      ModifierPullAll.prepareResolve (bindM m mf) root ei (bindPS m mf) := by
  unfold ModifierPullAll.prepare bindM bindPS
  by_cases h1 : m.positionalPathIndex ≠ 0
  · have h2 : mf ≠ "" := by
      cases h0 with
      | inl h => exact absurd h h1
      | inr h => exact h
    rw [if_pos h1, if_neg h2, if_pos h1, if_pos h1]
  · rw [if_neg h1, if_neg h1, if_neg h1]

theorem prepareResolve_nonexistent (m : ModifierPullAll) (root : BSONValue)
    (ei : ExecInfo) (ps : PreparedState)
    (hf : findLongestPrefix m.fieldRef root = ResolveOutcome.nonExistent) :
    ModifierPullAll.prepareResolve m root ei ps =
      (Status.OK, m, ps,
        { ei with noOp := true, inPlace := true, fieldRef := some m.fieldRef }) := by
  unfold ModifierPullAll.prepareResolve
  rw [hf]

theorem prepareResolve_notviable (m : ModifierPullAll) (root : BSONValue)
    (ei : ExecInfo) (ps : PreparedState) (i : Nat) (ref : List String)
    (v : BSONValue)
    (hf : findLongestPrefix m.fieldRef root = ResolveOutcome.notViable i ref v) :
    ModifierPullAll.prepareResolve m root ei ps =
      (⟨ErrorCode.PathNotViable, "cannot use the part to traverse the element"⟩, m,
        { ps with pathFoundIndex := i, pathFoundOk := true, pathFoundRef := ref },
        { ei with noOp := true, inPlace := true, fieldRef := some m.fieldRef }) := by
  unfold ModifierPullAll.prepareResolve
  rw [hf]

theorem prepareResolve_found_nonarr (m : ModifierPullAll) (root : BSONValue)
    (ei : ExecInfo) (ps : PreparedState) (i : Nat) (ref : List String)
    (v : BSONValue)
    (hf : findLongestPrefix m.fieldRef root = ResolveOutcome.found i ref v)
    (hv : v.isArray = false) :
    ModifierPullAll.prepareResolve m root ei ps =
      (⟨ErrorCode.BadValue, "can only $pull* from arrays"⟩, m,
        { ps with pathFoundIndex := i, pathFoundOk := true, pathFoundRef := ref },
        ei) := by
  unfold ModifierPullAll.prepareResolve
  rw [hf]
  simp only [hv, if_pos]

theorem prepareResolve_found_arr (m : ModifierPullAll) (root : BSONValue)
    (ei : ExecInfo) (ps : PreparedState) (i : Nat) (ref : List String)
    (vs : List BSONValue) (hps : ps.elementsToRemove = [])
    (hf : findLongestPrefix m.fieldRef root =
      ResolveOutcome.found i ref (BSONValue.varr vs)) :
    ModifierPullAll.prepareResolve m root ei ps =
      (Status.OK, m,
        { ps with pathFoundIndex := i,
                  pathFoundOk := true,
                  pathFoundRef := ref,
                  elementsToRemove := collectToRemove m.elementsToFind vs },
        if (collectToRemove m.elementsToFind vs).isEmpty then
          { ei with noOp := true, inPlace := true, fieldRef := some m.fieldRef }
        else { ei with fieldRef := some m.fieldRef }) := by
  unfold ModifierPullAll.prepareResolve
  rw [hf]
  simp only [BSONValue.isArray, BSONValue.arrayElems, Bool.true_eq_false, if_false]
  by_cases hvs : vs.isEmpty
  · have hnil : vs = [] := List.isEmpty_iff.mp hvs
    subst hnil
    have hids : collectToRemove m.elementsToFind ([] : List BSONValue) = [] := rfl
    rw [if_pos hvs, hids]
    cases ps with
    | mk pfi pfo pfr ppp ac etr =>
      simp only at hps
      subst hps
      simp [List.isEmpty]
  · rw [if_neg hvs]
    by_cases hid : (collectToRemove m.elementsToFind vs).isEmpty
    · rw [if_pos hid, if_pos hid]
    · rw [if_neg hid, if_neg hid]

theorem prepareResolve_modifier (m : ModifierPullAll) (root : BSONValue)
    (ei : ExecInfo) (ps : PreparedState) :
    (ModifierPullAll.prepareResolve m root ei ps).2.1 = m := by
  unfold ModifierPullAll.prepareResolve
  dsimp only
  split
  · split
    · rfl
    · split
      · rfl
      · split <;> rfl
  · rfl
  · rfl

theorem bindPS_elementsToRemove (m : ModifierPullAll) (mf : String) :
    (bindPS m mf).elementsToRemove = [] := by
  unfold bindPS
  split <;> rfl

theorem bindM_positionalPathIndex (m : ModifierPullAll) (mf : String) :
    (bindM m mf).positionalPathIndex = m.positionalPathIndex := by
  unfold bindM
  split <;> rfl

theorem bindM_elementsToFind (m : ModifierPullAll) (mf : String) :
    (bindM m mf).elementsToFind = m.elementsToFind := by
  unfold bindM
  split <;> rfl

theorem prepare_modifier_proj (m : ModifierPullAll) (root : BSONValue)
    (mf : String) (ei : ExecInfo) :
    (ModifierPullAll.prepare m root mf ei).2.1 =
      if m.positionalPathIndex ≠ 0 ∧ mf = "" then m else bindM m mf := by
  by_cases h1 : m.positionalPathIndex ≠ 0
  · by_cases h2 : mf = ""
    · rw [prepare_early m root mf ei h1 h2, if_pos ⟨h1, h2⟩]
    · rw [prepare_eq_resolve m root mf ei (Or.inr h2),
        if_neg (fun hc => h2 hc.2), prepareResolve_modifier]
  · rw [prepare_eq_resolve m root mf ei (Or.inl (by omega)),
      if_neg (fun hc => h1 hc.1), prepareResolve_modifier]

theorem log_set_entry (m : ModifierPullAll) (ps : PreparedState) (doc : BSONValue)
    (logRoot : List (String × BSONValue)) (v : BSONValue)
    (hok : ps.pathFoundOk = true)
    (hidx : ps.pathFoundIndex = m.fieldRef.numParts - 1)
    (hget : getValueAt ps.pathFoundRef doc = some v) :
    ModifierPullAll.log m ps doc logRoot =
      (Status.OK, logRoot ++ [("$set", BSONValue.vdoc [(m.fieldRef.dottedField, v)])]) := by
  unfold ModifierPullAll.log
  rw [hok, hidx]
  simp only [beq_self_eq_true, Bool.true_and, if_true]
  rw [hget]

theorem log_unset_entry (m : ModifierPullAll) (ps : PreparedState) (doc : BSONValue)
    (logRoot : List (String × BSONValue))
    (h : ¬(ps.pathFoundOk = true ∧ ps.pathFoundIndex = m.fieldRef.numParts - 1)) :
    ModifierPullAll.log m ps doc logRoot =
      (Status.OK,
        logRoot ++ [("$unset", BSONValue.vdoc [(m.fieldRef.dottedField, BSONValue.vbool true)])]) := by
  unfold ModifierPullAll.log
  have hb : (ps.pathFoundOk && (ps.pathFoundIndex == m.fieldRef.numParts - 1)) = false := by
    cases hp : ps.pathFoundOk with
    | false => rfl
    | true =>
      simp only [Bool.true_and, beq_eq_false_iff_ne, ne_eq]
      intro hc
      exact h ⟨hp, hc⟩
  rw [hb]
  simp only [Bool.false_eq_true, if_false]

theorem removeIds_collect (toFind : List BSONElement) (vs : List BSONValue) :
    (removeIds (collectToRemove toFind vs) (withIds 0 vs)).map (fun q => q.2) =
      vs.filter (fun v => !(matchesSet toFind v)) := by
  rw [collectToRemove_eq]
  exact removeIds_scan_withIds (matchesSet toFind) vs

theorem apply_target_value (m : ModifierPullAll) (ps : PreparedState)
    (doc : BSONValue) (vs : List BSONValue)
    (hget : getValueAt ps.pathFoundRef doc = some (BSONValue.varr vs))
    (hids : ps.elementsToRemove = collectToRemove m.elementsToFind vs) :
    getValueAt ps.pathFoundRef (ModifierPullAll.apply m ps doc).2.2 =
      some (BSONValue.varr
        (vs.filter (fun v => !(matchesSet m.elementsToFind v)))) := by
  have h := getValueAt_modifyAt
    (fun v =>
      match v with
      | BSONValue.varr ws =>
        BSONValue.varr ((removeIds ps.elementsToRemove (withIds 0 ws)).map (fun q => q.2))
      | w => w)
    ps.pathFoundRef doc (BSONValue.varr vs) hget
  unfold ModifierPullAll.apply
  simp only
  rw [h]
  dsimp only
  rw [hids, removeIds_collect]

theorem prepareResolve_not_matchedfield (m : ModifierPullAll) (root : BSONValue)
    (ei : ExecInfo) (ps : PreparedState) (hps : ps.elementsToRemove = []) :
    (ModifierPullAll.prepareResolve m root ei ps).1 ≠
      ⟨ErrorCode.BadValue, "matched field not provided"⟩ := by
  cases hf : findLongestPrefix m.fieldRef root with
  | nonExistent =>
    rw [prepareResolve_nonexistent m root ei ps hf]
    intro hc
    simp [Status.OK] at hc
  | notViable i ref v =>
    rw [prepareResolve_notviable m root ei ps i ref v hf]
    intro hc
    injection hc with hc1 hc2
    cases hc1
  | found i ref v =>
    by_cases hv : v.isArray = false
    · rw [prepareResolve_found_nonarr m root ei ps i ref v hf hv]
      intro hc
      injection hc with hc1 hc2
      exact absurd hc2 (by decide)
    · cases v with
      | varr vs =>
        rw [prepareResolve_found_arr m root ei ps i ref vs hps hf]
        intro hc
        simp [Status.OK] at hc
      | vint a => exact absurd rfl hv
      | vstr a => exact absurd rfl hv
      | vbool a => exact absurd rfl hv
      | vdoc a => exact absurd rfl hv

/-!
The claims.
-/

/-- Concrete inputs used by the C2 counterexample: a prepared state whose
`applyCalled` flag is already set, pointing one removal at the array under
`"a"`. -/
def psSecond : PreparedState :=
  { pathFoundIndex := 0, pathFoundOk := true, pathFoundRef := ["a"],
    pathPositionalPart := "", applyCalled := true, elementsToRemove := [1] }

/-- Modifier and document for the C2 counterexample. -/
def mSecond : ModifierPullAll := ⟨⟨["a"]⟩, 0, [⟨"0", BSONValue.vint 2⟩]⟩

/-- Document for the C2 counterexample. -/
def docSecond : BSONValue :=
  BSONValue.vdoc [("a", BSONValue.varr [BSONValue.vint 1, BSONValue.vint 2])]

/-- C2 counterexample: on a `PreparedState` whose `applyCalled` flag is
already set (as after a first `apply`), a further call to `apply` is not
treated as a contract violation: it performs the removals again and returns
OK, so the flag enforces nothing. -/
theorem apply_second_call_not_rejected :
    psSecond.applyCalled = true ∧
    (ModifierPullAll.apply mSecond psSecond docSecond).1 = Status.OK ∧
    (ModifierPullAll.apply mSecond psSecond docSecond).2.2 =
      BSONValue.vdoc [("a", BSONValue.varr [BSONValue.vint 1])] ∧
    (ModifierPullAll.apply mSecond psSecond docSecond).2.2 ≠ docSecond := by
  refine ⟨rfl, rfl, by decide, by decide⟩

/-- C2 (amended): `apply` records that it ran by setting the `applyCalled`
flag, but never consults it: its outcome is independent of the incoming flag
value, it always performs the captured removals and returns OK.  At-most-once
per prepare is a caller convention, not enforced by the flag. -/
theorem apply_ignores_applied_flag (m : ModifierPullAll) (ps : PreparedState)
    (doc : BSONValue) (b : Bool) :
    ModifierPullAll.apply m { ps with applyCalled := b } doc =
      ModifierPullAll.apply m ps doc ∧
    (ModifierPullAll.apply m ps doc).1 = Status.OK ∧
    (ModifierPullAll.apply m ps doc).2.1.applyCalled = true := by
  cases ps
  exact ⟨rfl, rfl, rfl⟩

/-- C3 counterexample: with a positional path and no matched field, `prepare`
returns early with `BadValue` and does not record the field path into
`ExecInfo.fieldRef` (the slot keeps its caller-initialized value `none`), so
`prepare` does not record the path on every return path. -/
theorem prepare_badvalue_skips_fieldRef_record :
    (ModifierPullAll.prepare ⟨⟨["a", "$"]⟩, 1, [⟨"0", BSONValue.vint 1⟩]⟩
        (BSONValue.vdoc [("a", BSONValue.varr [BSONValue.vint 1])]) ""
        ⟨false, false, none⟩).2.2.2.fieldRef = none ∧
    (ModifierPullAll.prepare ⟨⟨["a", "$"]⟩, 1, [⟨"0", BSONValue.vint 1⟩]⟩
        (BSONValue.vdoc [("a", BSONValue.varr [BSONValue.vint 1])]) ""
        ⟨false, false, none⟩).1 =
      ⟨ErrorCode.BadValue, "matched field not provided"⟩ := by
  exact ⟨rfl, rfl⟩

/-- C3 (amended): `prepare` records the (possibly positional-bound) field
path into `ExecInfo.fieldRef` on the success, no-op and propagated
resolution-failure paths, but not on the two `BadValue` early returns
(missing positional binding, non-array target), where `ExecInfo` is left
exactly as the caller passed it. -/
theorem prepare_fieldRef_recorded_unless_badvalue (m : ModifierPullAll)
    (root : BSONValue) (mf : String) (ei : ExecInfo) :
    ((ModifierPullAll.prepare m root mf ei).1.code = ErrorCode.BadValue →
      (ModifierPullAll.prepare m root mf ei).2.2.2 = ei) ∧
    ((ModifierPullAll.prepare m root mf ei).1.code ≠ ErrorCode.BadValue →
      (ModifierPullAll.prepare m root mf ei).2.2.2.fieldRef =
        some (ModifierPullAll.prepare m root mf ei).2.1.fieldRef) := by
  by_cases h1 : m.positionalPathIndex ≠ 0 ∧ mf = ""
  · rw [prepare_early m root mf ei h1.1 h1.2]
    exact ⟨fun _ => rfl, fun hc => absurd rfl hc⟩
  · have h0 : m.positionalPathIndex = 0 ∨ mf ≠ "" := by
      by_cases hp : m.positionalPathIndex = 0
      · exact Or.inl hp
      · exact Or.inr (fun hmf => h1 ⟨hp, hmf⟩)
    rw [prepare_eq_resolve m root mf ei h0]
    cases hf : findLongestPrefix (bindM m mf).fieldRef root with
    | nonExistent =>
      rw [prepareResolve_nonexistent _ _ _ _ hf]
      exact ⟨fun hc => by simp [Status.OK] at hc, fun _ => rfl⟩
    | notViable i ref v =>
      rw [prepareResolve_notviable _ _ _ _ i ref v hf]
      exact ⟨fun hc => by simp at hc, fun _ => rfl⟩
    | found i ref v =>
      by_cases hv : v.isArray = false
      · rw [prepareResolve_found_nonarr _ _ _ _ i ref v hf hv]
        exact ⟨fun _ => rfl, fun hc => absurd rfl hc⟩
      · cases v with
        | varr vs =>
          rw [prepareResolve_found_arr _ _ _ _ i ref vs
            (bindPS_elementsToRemove m mf) hf]
          constructor
          · intro hc
            simp [Status.OK] at hc
          · intro _
            by_cases hid : (collectToRemove (bindM m mf).elementsToFind vs).isEmpty
            · rw [if_pos hid]
            · rw [if_neg hid]
        | vint a => exact absurd rfl hv
        | vstr a => exact absurd rfl hv
        | vbool a => exact absurd rfl hv
        | vdoc a => exact absurd rfl hv

/-- C3 amended witness at a concrete input (non-positional path `"a"`,
document without the path): the fieldRef slot is recorded on the OK path. -/
theorem prepare_fieldRef_recorded_unless_badvalue_witness :
    (((ModifierPullAll.prepare ⟨⟨["a"]⟩, 0, []⟩ (BSONValue.vdoc []) ""
        ⟨false, false, none⟩).1.code = ErrorCode.BadValue →
      (ModifierPullAll.prepare ⟨⟨["a"]⟩, 0, []⟩ (BSONValue.vdoc []) ""
        ⟨false, false, none⟩).2.2.2 = ⟨false, false, none⟩) ∧
    ((ModifierPullAll.prepare ⟨⟨["a"]⟩, 0, []⟩ (BSONValue.vdoc []) ""
        ⟨false, false, none⟩).1.code ≠ ErrorCode.BadValue →
      (ModifierPullAll.prepare ⟨⟨["a"]⟩, 0, []⟩ (BSONValue.vdoc []) ""
        ⟨false, false, none⟩).2.2.2.fieldRef =
        some (ModifierPullAll.prepare ⟨⟨["a"]⟩, 0, []⟩ (BSONValue.vdoc []) ""
          ⟨false, false, none⟩).2.1.fieldRef)) :=
  prepare_fieldRef_recorded_unless_badvalue ⟨⟨["a"]⟩, 0, []⟩ (BSONValue.vdoc []) ""
    ⟨false, false, none⟩

/-- C6: membership in the value set is decided by value-plus-type equality
that ignores the compared element's own field name: the matcher's verdict is
unchanged under any renaming of either side, and it accepts exactly when the
two typed values are equal (no cross-type coercion: equal values have equal
types by construction). -/
theorem matcher_value_type_equality (n1 n2 : String) (v w : BSONValue) :
    (mutableElementEqualsBSONElement ⟨n1, v⟩ ⟨n2, w⟩ =
      mutableElementEqualsBSONElement ⟨"", v⟩ ⟨"", w⟩) ∧
    (mutableElementEqualsBSONElement ⟨n1, v⟩ ⟨n2, w⟩ = true ↔ v = w) := by
  constructor
  · rw [mutableElementEqualsBSONElement_eq, mutableElementEqualsBSONElement_eq]
  · rw [mutableElementEqualsBSONElement_eq]
    exact decide_eq_true_iff

/-- C10: when the positional placeholder is the first path part, the recorded
positional index is 0, which `prepare` treats as "no positional": it behaves
exactly as with an absent matched field, never substitutes into the field
path, and never returns the missing-matched-field `BadValue` error. -/
theorem positional_first_part_nonpositional (modExpr : BSONElement)
    (root : BSONValue) (mf : String) (ei : ExecInfo)
    (h : (FieldRef.parse modExpr.name).parts.head? = some "$") :
    (ModifierPullAll.init modExpr).2.positionalPathIndex = 0 ∧
    ModifierPullAll.prepare (ModifierPullAll.init modExpr).2 root mf ei =
      ModifierPullAll.prepare (ModifierPullAll.init modExpr).2 root "" ei ∧
    (ModifierPullAll.prepare (ModifierPullAll.init modExpr).2 root mf ei).2.1 =
      (ModifierPullAll.init modExpr).2 ∧
    (ModifierPullAll.prepare (ModifierPullAll.init modExpr).2 root mf ei).1 ≠
      ⟨ErrorCode.BadValue, "matched field not provided"⟩ := by
  have hidx : fieldchecker.positionalIndex (FieldRef.parse modExpr.name) = 0 := by
    unfold fieldchecker.positionalIndex
    cases hp : (FieldRef.parse modExpr.name).parts with
    | nil => rfl
    | cons a rest =>
      rw [hp] at h
      simp only [List.head?] at h
      injection h with h
      rw [List.findIdx?_cons]
      have ha : (a == "$") = true := by
        rw [h]
        rfl
      rw [ha]
      simp
  have hpos : (ModifierPullAll.init modExpr).2.positionalPathIndex = 0 := by
    unfold ModifierPullAll.init
    dsimp only
    split
    · rfl
    · cases modExpr.value <;> simp [hidx]
  have hnp : ¬((ModifierPullAll.init modExpr).2.positionalPathIndex ≠ 0) :=
    fun hc => hc hpos
  have hprep : ∀ s : String,
      ModifierPullAll.prepare (ModifierPullAll.init modExpr).2 root s ei =
        ModifierPullAll.prepareResolve (ModifierPullAll.init modExpr).2 root ei {} := by
    intro s
    unfold ModifierPullAll.prepare
    rw [if_neg hnp]
  refine ⟨hpos, ?_, ?_, ?_⟩
  · rw [hprep mf, hprep ""]
  · rw [hprep mf, prepareResolve_modifier]
  · rw [hprep mf]
    exact prepareResolve_not_matchedfield _ root ei {} rfl

/-- C10 witness: for the operator spec `{"$.b": [5]}` the positional index is
0 and `prepare` with a matched field behaves as with none. -/
theorem positional_first_part_nonpositional_witness :
    (ModifierPullAll.init ⟨"$.b", BSONValue.varr [BSONValue.vint 5]⟩).2.positionalPathIndex = 0 ∧
    ModifierPullAll.prepare (ModifierPullAll.init ⟨"$.b", BSONValue.varr [BSONValue.vint 5]⟩).2
        (BSONValue.vdoc []) "2" ⟨false, false, none⟩ =
      ModifierPullAll.prepare (ModifierPullAll.init ⟨"$.b", BSONValue.varr [BSONValue.vint 5]⟩).2
        (BSONValue.vdoc []) "" ⟨false, false, none⟩ ∧
    (ModifierPullAll.prepare (ModifierPullAll.init ⟨"$.b", BSONValue.varr [BSONValue.vint 5]⟩).2
        (BSONValue.vdoc []) "2" ⟨false, false, none⟩).2.1 =
      (ModifierPullAll.init ⟨"$.b", BSONValue.varr [BSONValue.vint 5]⟩).2 ∧
    (ModifierPullAll.prepare (ModifierPullAll.init ⟨"$.b", BSONValue.varr [BSONValue.vint 5]⟩).2
        (BSONValue.vdoc []) "2" ⟨false, false, none⟩).1 ≠
      ⟨ErrorCode.BadValue, "matched field not provided"⟩ :=
  positional_first_part_nonpositional ⟨"$.b", BSONValue.varr [BSONValue.vint 5]⟩
    (BSONValue.vdoc []) "2" ⟨false, false, none⟩ (by decide)

/-- C4: when resolution reports the distinguished non-existent-path outcome,
`prepare` returns OK with `noOp = inPlace = true` and still records the field
path into `ExecInfo.fieldRef`; a resolution failure of the other kind
(path-not-viable) is propagated as `prepare`'s returned status. -/
theorem prepare_nonexistent_ok_noop (m : ModifierPullAll) (root : BSONValue)
    (mf : String) (ei : ExecInfo)
    (h0 : m.positionalPathIndex = 0 ∨ mf ≠ "") :
    (findLongestPrefix ((ModifierPullAll.prepare m root mf ei).2.1).fieldRef root =
        ResolveOutcome.nonExistent →
      (ModifierPullAll.prepare m root mf ei).1 = Status.OK ∧
      (ModifierPullAll.prepare m root mf ei).2.2.2.noOp = true ∧
      (ModifierPullAll.prepare m root mf ei).2.2.2.inPlace = true ∧
      (ModifierPullAll.prepare m root mf ei).2.2.2.fieldRef =
        some ((ModifierPullAll.prepare m root mf ei).2.1).fieldRef) ∧
    (∀ i ref v,
      findLongestPrefix ((ModifierPullAll.prepare m root mf ei).2.1).fieldRef root =
        ResolveOutcome.notViable i ref v →
      (ModifierPullAll.prepare m root mf ei).1 =
        ⟨ErrorCode.PathNotViable, "cannot use the part to traverse the element"⟩) := by
  rw [prepare_eq_resolve m root mf ei h0, prepareResolve_modifier]
  constructor
  · intro hf
    rw [prepareResolve_nonexistent _ _ _ _ hf]
    exact ⟨rfl, rfl, rfl, rfl⟩
  · intro i ref v hf
    rw [prepareResolve_notviable _ _ _ _ i ref v hf]

/-- C4 witness: path `"a"` over the document `{b: 1}` resolves to the
non-existent-path outcome; `prepare` returns OK with both flags set and the
field path recorded. -/
theorem prepare_nonexistent_ok_noop_witness :
    (findLongestPrefix ((ModifierPullAll.prepare ⟨⟨["a"]⟩, 0, []⟩
          (BSONValue.vdoc [("b", BSONValue.vint 1)]) ""
          ⟨false, false, none⟩).2.1).fieldRef
        (BSONValue.vdoc [("b", BSONValue.vint 1)]) = ResolveOutcome.nonExistent →
      (ModifierPullAll.prepare ⟨⟨["a"]⟩, 0, []⟩
          (BSONValue.vdoc [("b", BSONValue.vint 1)]) "" ⟨false, false, none⟩).1 =
        Status.OK ∧
      (ModifierPullAll.prepare ⟨⟨["a"]⟩, 0, []⟩
          (BSONValue.vdoc [("b", BSONValue.vint 1)]) "" ⟨false, false, none⟩).2.2.2.noOp = true ∧
      (ModifierPullAll.prepare ⟨⟨["a"]⟩, 0, []⟩
          (BSONValue.vdoc [("b", BSONValue.vint 1)]) "" ⟨false, false, none⟩).2.2.2.inPlace = true ∧
      (ModifierPullAll.prepare ⟨⟨["a"]⟩, 0, []⟩
          (BSONValue.vdoc [("b", BSONValue.vint 1)]) "" ⟨false, false, none⟩).2.2.2.fieldRef =
        some ((ModifierPullAll.prepare ⟨⟨["a"]⟩, 0, []⟩
          (BSONValue.vdoc [("b", BSONValue.vint 1)]) "" ⟨false, false, none⟩).2.1).fieldRef) ∧
    (∀ i ref v,
      findLongestPrefix ((ModifierPullAll.prepare ⟨⟨["a"]⟩, 0, []⟩
          (BSONValue.vdoc [("b", BSONValue.vint 1)]) ""
          ⟨false, false, none⟩).2.1).fieldRef
        (BSONValue.vdoc [("b", BSONValue.vint 1)]) = ResolveOutcome.notViable i ref v →
      (ModifierPullAll.prepare ⟨⟨["a"]⟩, 0, []⟩
          (BSONValue.vdoc [("b", BSONValue.vint 1)]) "" ⟨false, false, none⟩).1 =
        ⟨ErrorCode.PathNotViable, "cannot use the part to traverse the element"⟩) :=
  prepare_nonexistent_ok_noop ⟨⟨["a"]⟩, 0, []⟩
    (BSONValue.vdoc [("b", BSONValue.vint 1)]) "" ⟨false, false, none⟩ (Or.inl rfl)

/-- C7: when resolution succeeds with the full path (resolved depth plus one
equals the part count) but the resolved node is not an array, `prepare` fails
with `BadValue` ("can only $pull* from arrays") and the document processing
leaves the document unchanged. -/
theorem prepare_found_nonarray_badvalue (m : ModifierPullAll) (root : BSONValue)
    (mf : String) (ei : ExecInfo) (logRoot : List (String × BSONValue))
    (i : Nat) (ref : List String) (v : BSONValue)
    (h0 : m.positionalPathIndex = 0 ∨ mf ≠ "")
    (hf : findLongestPrefix ((ModifierPullAll.prepare m root mf ei).2.1).fieldRef root =
      ResolveOutcome.found i ref v)
    (_hfull : i + 1 = ((ModifierPullAll.prepare m root mf ei).2.1).fieldRef.numParts)
    (hv : v.isArray = false) :
    (ModifierPullAll.prepare m root mf ei).1 =
      ⟨ErrorCode.BadValue, "can only $pull* from arrays"⟩ ∧
    (ModifierPullAll.processOne m root mf ei logRoot).2.2.1 = root := by
  rw [prepare_eq_resolve m root mf ei h0, prepareResolve_modifier] at hf
  unfold ModifierPullAll.processOne
  rw [prepare_eq_resolve m root mf ei h0,
    prepareResolve_found_nonarr _ _ _ _ i ref v hf hv]
  exact ⟨rfl, rfl⟩

/-- C7 witness: path `"a"` over `{a: 7}` resolves fully to a non-array;
`prepare` returns the `BadValue` error and the document is unchanged. -/
theorem prepare_found_nonarray_badvalue_witness :
    (ModifierPullAll.prepare ⟨⟨["a"]⟩, 0, []⟩
        (BSONValue.vdoc [("a", BSONValue.vint 7)]) "" ⟨false, false, none⟩).1 =
      ⟨ErrorCode.BadValue, "can only $pull* from arrays"⟩ ∧
    (ModifierPullAll.processOne ⟨⟨["a"]⟩, 0, []⟩
        (BSONValue.vdoc [("a", BSONValue.vint 7)]) "" ⟨false, false, none⟩ []).2.2.1 =
      BSONValue.vdoc [("a", BSONValue.vint 7)] :=
  prepare_found_nonarray_badvalue ⟨⟨["a"]⟩, 0, []⟩
    (BSONValue.vdoc [("a", BSONValue.vint 7)]) "" ⟨false, false, none⟩ []
    0 ["a"] (BSONValue.vint 7) (Or.inl rfl) (by decide) (by decide) rfl

/-- C9: `prepare` never assigns `false` to the `ExecInfo` flags: every write
sets both to true, so the flags either keep exactly the caller's values or
are both true; it writes them (both true) even when it propagates the
path-not-viable resolution error; and on a successful prepare whose removal
list is non-empty it writes neither flag, so the caller's initial values are
what remains. -/
theorem prepare_flag_write_discipline (m : ModifierPullAll) (root : BSONValue)
    (mf : String) (ei : ExecInfo) :
    (((ModifierPullAll.prepare m root mf ei).2.2.2.noOp = ei.noOp ∧
      (ModifierPullAll.prepare m root mf ei).2.2.2.inPlace = ei.inPlace) ∨
     ((ModifierPullAll.prepare m root mf ei).2.2.2.noOp = true ∧
      (ModifierPullAll.prepare m root mf ei).2.2.2.inPlace = true)) ∧
    ((m.positionalPathIndex = 0 ∨ mf ≠ "") →
      ∀ i ref v,
        findLongestPrefix ((ModifierPullAll.prepare m root mf ei).2.1).fieldRef root =
          ResolveOutcome.notViable i ref v →
        (ModifierPullAll.prepare m root mf ei).2.2.2.noOp = true ∧
        (ModifierPullAll.prepare m root mf ei).2.2.2.inPlace = true) ∧
    ((ModifierPullAll.prepare m root mf ei).1 = Status.OK →
      (ModifierPullAll.prepare m root mf ei).2.2.1.elementsToRemove ≠ [] →
      (ModifierPullAll.prepare m root mf ei).2.2.2.noOp = ei.noOp ∧
      (ModifierPullAll.prepare m root mf ei).2.2.2.inPlace = ei.inPlace) := by
  by_cases h1 : m.positionalPathIndex ≠ 0 ∧ mf = ""
  · rw [prepare_early m root mf ei h1.1 h1.2]
    refine ⟨Or.inl ⟨rfl, rfl⟩, ?_, ?_⟩
    · intro h0
      cases h0 with
      | inl hp => exact absurd hp h1.1
      | inr hmf => exact absurd h1.2 hmf
    · intro hok
      exact absurd hok.symm (by simp [Status.OK])
  · have h0 : m.positionalPathIndex = 0 ∨ mf ≠ "" := by
      by_cases hp : m.positionalPathIndex = 0
      · exact Or.inl hp
      · exact Or.inr (fun hmf => h1 ⟨hp, hmf⟩)
    rw [prepare_eq_resolve m root mf ei h0, prepareResolve_modifier]
    cases hf : findLongestPrefix (bindM m mf).fieldRef root with
    | nonExistent =>
      rw [prepareResolve_nonexistent _ _ _ _ hf]
      refine ⟨Or.inr ⟨rfl, rfl⟩, ?_, ?_⟩
      · intro _ i ref v hf'
        cases hf'
      · intro _ hne
        exact absurd (bindPS_elementsToRemove m mf) hne
    | notViable i ref v =>
      rw [prepareResolve_notviable _ _ _ _ i ref v hf]
      refine ⟨Or.inr ⟨rfl, rfl⟩, fun _ _ _ _ _ => ⟨rfl, rfl⟩, ?_⟩
      · intro hok
        exact absurd hok (by simp [Status.OK])
    | found i ref v =>
      by_cases hv : v.isArray = false
      · rw [prepareResolve_found_nonarr _ _ _ _ i ref v hf hv]
        refine ⟨Or.inl ⟨rfl, rfl⟩, ?_, ?_⟩
        · intro _ i' ref' v' hf'
          cases hf'
        · intro hok
          exact absurd hok (by simp [Status.OK])
      · cases v with
        | varr vs =>
          rw [prepareResolve_found_arr _ _ _ _ i ref vs
            (bindPS_elementsToRemove m mf) hf]
          refine ⟨?_, ?_, ?_⟩
          · by_cases hid : (collectToRemove (bindM m mf).elementsToFind vs).isEmpty
            · rw [if_pos hid]
              exact Or.inr ⟨rfl, rfl⟩
            · rw [if_neg hid]
              exact Or.inl ⟨rfl, rfl⟩
          · intro _ i' ref' v' hf'
            cases hf'
          · intro _ hne
            have hid : ¬(collectToRemove (bindM m mf).elementsToFind vs).isEmpty := by
              intro hc
              exact hne (List.isEmpty_iff.mp hc)
            rw [if_neg hid]
            exact ⟨rfl, rfl⟩
        | vint a => exact absurd rfl hv
        | vstr a => exact absurd rfl hv
        | vbool a => exact absurd rfl hv
        | vdoc a => exact absurd rfl hv

/-- C9 witness: for the document `{a: [1, 2]}` and value set `[2]` the
prepare succeeds with a non-empty removal list and leaves the caller's flag
values (false, false) untouched. -/
theorem prepare_flag_write_discipline_witness :
    (((ModifierPullAll.prepare ⟨⟨["a"]⟩, 0, [⟨"0", BSONValue.vint 2⟩]⟩
        (BSONValue.vdoc [("a", BSONValue.varr [BSONValue.vint 1, BSONValue.vint 2])]) ""
        ⟨false, false, none⟩).2.2.2.noOp = (⟨false, false, none⟩ : ExecInfo).noOp ∧
      (ModifierPullAll.prepare ⟨⟨["a"]⟩, 0, [⟨"0", BSONValue.vint 2⟩]⟩
        (BSONValue.vdoc [("a", BSONValue.varr [BSONValue.vint 1, BSONValue.vint 2])]) ""
        ⟨false, false, none⟩).2.2.2.inPlace = (⟨false, false, none⟩ : ExecInfo).inPlace) ∨
     ((ModifierPullAll.prepare ⟨⟨["a"]⟩, 0, [⟨"0", BSONValue.vint 2⟩]⟩
        (BSONValue.vdoc [("a", BSONValue.varr [BSONValue.vint 1, BSONValue.vint 2])]) ""
        ⟨false, false, none⟩).2.2.2.noOp = true ∧
      (ModifierPullAll.prepare ⟨⟨["a"]⟩, 0, [⟨"0", BSONValue.vint 2⟩]⟩
        (BSONValue.vdoc [("a", BSONValue.varr [BSONValue.vint 1, BSONValue.vint 2])]) ""
        ⟨false, false, none⟩).2.2.2.inPlace = true)) ∧
    (((⟨⟨["a"]⟩, 0, [⟨"0", BSONValue.vint 2⟩]⟩ : ModifierPullAll).positionalPathIndex = 0 ∨
        ("" : String) ≠ "") →
      ∀ i ref v,
        findLongestPrefix ((ModifierPullAll.prepare ⟨⟨["a"]⟩, 0, [⟨"0", BSONValue.vint 2⟩]⟩
            (BSONValue.vdoc [("a", BSONValue.varr [BSONValue.vint 1, BSONValue.vint 2])]) ""
            ⟨false, false, none⟩).2.1).fieldRef
          (BSONValue.vdoc [("a", BSONValue.varr [BSONValue.vint 1, BSONValue.vint 2])]) =
          ResolveOutcome.notViable i ref v →
        (ModifierPullAll.prepare ⟨⟨["a"]⟩, 0, [⟨"0", BSONValue.vint 2⟩]⟩
            (BSONValue.vdoc [("a", BSONValue.varr [BSONValue.vint 1, BSONValue.vint 2])]) ""
            ⟨false, false, none⟩).2.2.2.noOp = true ∧
        (ModifierPullAll.prepare ⟨⟨["a"]⟩, 0, [⟨"0", BSONValue.vint 2⟩]⟩
            (BSONValue.vdoc [("a", BSONValue.varr [BSONValue.vint 1, BSONValue.vint 2])]) ""
            ⟨false, false, none⟩).2.2.2.inPlace = true) ∧
    ((ModifierPullAll.prepare ⟨⟨["a"]⟩, 0, [⟨"0", BSONValue.vint 2⟩]⟩
        (BSONValue.vdoc [("a", BSONValue.varr [BSONValue.vint 1, BSONValue.vint 2])]) ""
        ⟨false, false, none⟩).1 = Status.OK →
      (ModifierPullAll.prepare ⟨⟨["a"]⟩, 0, [⟨"0", BSONValue.vint 2⟩]⟩
        (BSONValue.vdoc [("a", BSONValue.varr [BSONValue.vint 1, BSONValue.vint 2])]) ""
        ⟨false, false, none⟩).2.2.1.elementsToRemove ≠ [] →
      (ModifierPullAll.prepare ⟨⟨["a"]⟩, 0, [⟨"0", BSONValue.vint 2⟩]⟩
        (BSONValue.vdoc [("a", BSONValue.varr [BSONValue.vint 1, BSONValue.vint 2])]) ""
        ⟨false, false, none⟩).2.2.2.noOp = (⟨false, false, none⟩ : ExecInfo).noOp ∧
      (ModifierPullAll.prepare ⟨⟨["a"]⟩, 0, [⟨"0", BSONValue.vint 2⟩]⟩
        (BSONValue.vdoc [("a", BSONValue.varr [BSONValue.vint 1, BSONValue.vint 2])]) ""
        ⟨false, false, none⟩).2.2.2.inPlace = (⟨false, false, none⟩ : ExecInfo).inPlace) :=
  prepare_flag_write_discipline ⟨⟨["a"]⟩, 0, [⟨"0", BSONValue.vint 2⟩]⟩
    (BSONValue.vdoc [("a", BSONValue.varr [BSONValue.vint 1, BSONValue.vint 2])]) ""
    ⟨false, false, none⟩

theorem FieldRef.setPart_setPart (fr : FieldRef) (i : Nat) (x y : String) :
    (fr.setPart i x).setPart i y = fr.setPart i y := by
  unfold FieldRef.setPart
  exact congrArg FieldRef.mk (List.set_set x y fr.parts i)

theorem prepare_rebind (m : ModifierPullAll) (x mf : String) (root : BSONValue)
    (ei : ExecInfo) (hp : m.positionalPathIndex ≠ 0) (hmf : mf ≠ "") :
    ModifierPullAll.prepare
        { m with fieldRef := m.fieldRef.setPart m.positionalPathIndex x }
        root mf ei =
      ModifierPullAll.prepare m root mf ei := by
  rw [prepare_eq_resolve _ root mf ei (Or.inr hmf),
    prepare_eq_resolve m root mf ei (Or.inr hmf)]
  unfold bindM bindPS
  dsimp only
  simp only [if_pos hp, FieldRef.setPart_setPart]

theorem processOne_modifier (m : ModifierPullAll) (root : BSONValue)
    (mf : String) (ei : ExecInfo) (l : List (String × BSONValue)) :
    (ModifierPullAll.processOne m root mf ei l).2.1 =
      (ModifierPullAll.prepare m root mf ei).2.1 := by
  unfold ModifierPullAll.processOne
  dsimp only
  split <;> rfl

/-- C8: the field path is immutable across a document's processing except for
the positional substitution: `processOne` preserves the positional index and
the value set, leaves the path untouched when no positional part exists or no
binding happened, and otherwise rewrites exactly the positional part; and the
binding is scoped to the one document: processing a second document after a
first one yields the same status, document and log as processing it from the
initial orchestrator, so no binding from the first document leaks into the
second document's processing. -/
theorem positional_binding_document_scoped (m : ModifierPullAll)
    (d1 d2 : BSONValue) (mf1 mf2 : String) (ei1 ei2 : ExecInfo)
    (l1 l2 : List (String × BSONValue)) :
    ((ModifierPullAll.processOne m d1 mf1 ei1 l1).2.1.positionalPathIndex =
       m.positionalPathIndex ∧
     (ModifierPullAll.processOne m d1 mf1 ei1 l1).2.1.elementsToFind =
       m.elementsToFind ∧
     (m.positionalPathIndex = 0 →
       (ModifierPullAll.processOne m d1 mf1 ei1 l1).2.1 = m) ∧
     (m.positionalPathIndex ≠ 0 → mf1 ≠ "" →
       (ModifierPullAll.processOne m d1 mf1 ei1 l1).2.1.fieldRef =
         m.fieldRef.setPart m.positionalPathIndex mf1)) ∧
    ((ModifierPullAll.processOne
        (ModifierPullAll.processOne m d1 mf1 ei1 l1).2.1 d2 mf2 ei2 l2).1 =
       (ModifierPullAll.processOne m d2 mf2 ei2 l2).1 ∧
     (ModifierPullAll.processOne
        (ModifierPullAll.processOne m d1 mf1 ei1 l1).2.1 d2 mf2 ei2 l2).2.2 =
       (ModifierPullAll.processOne m d2 mf2 ei2 l2).2.2) := by
  rw [processOne_modifier m d1 mf1 ei1 l1, prepare_modifier_proj m d1 mf1 ei1]
  by_cases hp : m.positionalPathIndex = 0
  · have hc : ¬(m.positionalPathIndex ≠ 0 ∧ mf1 = "") := fun h => h.1 hp
    rw [if_neg hc]
    have hbm : bindM m mf1 = m := by
      unfold bindM
      rw [if_neg (fun h => h hp)]
    rw [hbm]
    exact ⟨⟨rfl, rfl, fun _ => rfl, fun hne _ => absurd hp hne⟩, rfl, rfl⟩
  · by_cases hmf1 : mf1 = ""
    · rw [if_pos ⟨hp, hmf1⟩]
      exact ⟨⟨rfl, rfl, fun h0 => absurd h0 hp, fun _ hne => absurd hmf1 hne⟩,
        rfl, rfl⟩
    · rw [if_neg (fun h => hmf1 h.2)]
      refine ⟨⟨bindM_positionalPathIndex m mf1, bindM_elementsToFind m mf1,
        fun h0 => absurd h0 hp, fun _ _ => ?_⟩, ?_⟩
      · unfold bindM
        rw [if_pos hp]
      · have hbm : bindM m mf1 =
            { m with fieldRef := m.fieldRef.setPart m.positionalPathIndex mf1 } := by
          unfold bindM
          rw [if_pos hp]
        by_cases hmf2 : mf2 = ""
        · have h1 := prepare_early (bindM m mf1) d2 mf2 ei2
            (by rw [bindM_positionalPathIndex]; exact hp) hmf2
          have h2 := prepare_early m d2 mf2 ei2 hp hmf2
          unfold ModifierPullAll.processOne
          rw [h1, h2]
          exact ⟨rfl, rfl⟩
        · have hpr : ModifierPullAll.prepare (bindM m mf1) d2 mf2 ei2 =
              ModifierPullAll.prepare m d2 mf2 ei2 := by
            rw [hbm]
            exact prepare_rebind m mf1 mf2 d2 ei2 hp hmf2
          unfold ModifierPullAll.processOne
          rw [hpr]
          exact ⟨rfl, rfl⟩

/-- C8 witness: positional path `"a.$"`, two documents processed in sequence
with different matched fields. -/
theorem positional_binding_document_scoped_witness :
    ((ModifierPullAll.processOne ⟨⟨["a", "$"]⟩, 1, [⟨"0", BSONValue.vint 1⟩]⟩
        (BSONValue.vdoc [("a", BSONValue.varr [BSONValue.vint 1])]) "0"
        ⟨false, false, none⟩ []).2.1.positionalPathIndex =
       (⟨⟨["a", "$"]⟩, 1, [⟨"0", BSONValue.vint 1⟩]⟩ : ModifierPullAll).positionalPathIndex ∧
     (ModifierPullAll.processOne ⟨⟨["a", "$"]⟩, 1, [⟨"0", BSONValue.vint 1⟩]⟩
        (BSONValue.vdoc [("a", BSONValue.varr [BSONValue.vint 1])]) "0"
        ⟨false, false, none⟩ []).2.1.elementsToFind =
       (⟨⟨["a", "$"]⟩, 1, [⟨"0", BSONValue.vint 1⟩]⟩ : ModifierPullAll).elementsToFind ∧
     ((⟨⟨["a", "$"]⟩, 1, [⟨"0", BSONValue.vint 1⟩]⟩ : ModifierPullAll).positionalPathIndex = 0 →
       (ModifierPullAll.processOne ⟨⟨["a", "$"]⟩, 1, [⟨"0", BSONValue.vint 1⟩]⟩
        (BSONValue.vdoc [("a", BSONValue.varr [BSONValue.vint 1])]) "0"
        ⟨false, false, none⟩ []).2.1 = ⟨⟨["a", "$"]⟩, 1, [⟨"0", BSONValue.vint 1⟩]⟩) ∧
     ((⟨⟨["a", "$"]⟩, 1, [⟨"0", BSONValue.vint 1⟩]⟩ : ModifierPullAll).positionalPathIndex ≠ 0 →
       ("0" : String) ≠ "" →
       (ModifierPullAll.processOne ⟨⟨["a", "$"]⟩, 1, [⟨"0", BSONValue.vint 1⟩]⟩
        (BSONValue.vdoc [("a", BSONValue.varr [BSONValue.vint 1])]) "0"
        ⟨false, false, none⟩ []).2.1.fieldRef =
         (⟨⟨["a", "$"]⟩, 1, [⟨"0", BSONValue.vint 1⟩]⟩ : ModifierPullAll).fieldRef.setPart
           (⟨⟨["a", "$"]⟩, 1, [⟨"0", BSONValue.vint 1⟩]⟩ : ModifierPullAll).positionalPathIndex "0")) ∧
    ((ModifierPullAll.processOne
        (ModifierPullAll.processOne ⟨⟨["a", "$"]⟩, 1, [⟨"0", BSONValue.vint 1⟩]⟩
          (BSONValue.vdoc [("a", BSONValue.varr [BSONValue.vint 1])]) "0"
          ⟨false, false, none⟩ []).2.1
        (BSONValue.vdoc [("b", BSONValue.vint 2)]) "1" ⟨false, false, none⟩ []).1 =
       (ModifierPullAll.processOne ⟨⟨["a", "$"]⟩, 1, [⟨"0", BSONValue.vint 1⟩]⟩
        (BSONValue.vdoc [("b", BSONValue.vint 2)]) "1" ⟨false, false, none⟩ []).1 ∧
     (ModifierPullAll.processOne
        (ModifierPullAll.processOne ⟨⟨["a", "$"]⟩, 1, [⟨"0", BSONValue.vint 1⟩]⟩
          (BSONValue.vdoc [("a", BSONValue.varr [BSONValue.vint 1])]) "0"
          ⟨false, false, none⟩ []).2.1
        (BSONValue.vdoc [("b", BSONValue.vint 2)]) "1" ⟨false, false, none⟩ []).2.2 =
       (ModifierPullAll.processOne ⟨⟨["a", "$"]⟩, 1, [⟨"0", BSONValue.vint 1⟩]⟩
        (BSONValue.vdoc [("b", BSONValue.vint 2)]) "1" ⟨false, false, none⟩ []).2.2) :=
  positional_binding_document_scoped ⟨⟨["a", "$"]⟩, 1, [⟨"0", BSONValue.vint 1⟩]⟩
    (BSONValue.vdoc [("a", BSONValue.varr [BSONValue.vint 1])])
    (BSONValue.vdoc [("b", BSONValue.vint 2)]) "0" "1"
    ⟨false, false, none⟩ ⟨false, false, none⟩ [] []

/-- C5: when the resolver finds an array, `prepare`'s removal list is exactly
the left-to-right scan of the children against the value set, `apply` removes
exactly those captured elements in the order captured and returns OK, and the
resulting array is the order-preserving filter of the elements whose value
matches no member of the value set. -/
theorem apply_removes_scanned_matches (m : ModifierPullAll) (root : BSONValue)
    (mf : String) (ei : ExecInfo) (i : Nat) (ref : List String)
    (vs : List BSONValue)
    (h0 : m.positionalPathIndex = 0 ∨ mf ≠ "")
    (hf : findLongestPrefix ((ModifierPullAll.prepare m root mf ei).2.1).fieldRef root =
      ResolveOutcome.found i ref (BSONValue.varr vs)) :
    (ModifierPullAll.prepare m root mf ei).2.2.1.elementsToRemove =
      collectToRemove ((ModifierPullAll.prepare m root mf ei).2.1).elementsToFind vs ∧
    (ModifierPullAll.apply (ModifierPullAll.prepare m root mf ei).2.1
        (ModifierPullAll.prepare m root mf ei).2.2.1 root).1 = Status.OK ∧
    getValueAt ref
        (ModifierPullAll.apply (ModifierPullAll.prepare m root mf ei).2.1
          (ModifierPullAll.prepare m root mf ei).2.2.1 root).2.2 =
      some (BSONValue.varr (vs.filter (fun v =>
        !(matchesSet ((ModifierPullAll.prepare m root mf ei).2.1).elementsToFind v)))) := by
  rw [prepare_eq_resolve m root mf ei h0, prepareResolve_modifier] at hf
  rw [prepare_eq_resolve m root mf ei h0,
    prepareResolve_found_arr _ _ _ _ i ref vs (bindPS_elementsToRemove m mf) hf]
  dsimp only
  obtain ⟨hget, _, _⟩ :=
    findLongestPrefix_found (bindM m mf).fieldRef root i ref (BSONValue.varr vs) hf
  refine ⟨rfl, rfl, ?_⟩
  exact apply_target_value (bindM m mf)
    { pathFoundIndex := i, pathFoundOk := true, pathFoundRef := ref,
      pathPositionalPart := (bindPS m mf).pathPositionalPart,
      applyCalled := (bindPS m mf).applyCalled,
      elementsToRemove := collectToRemove (bindM m mf).elementsToFind vs }
    root vs hget rfl

/-- C5 witness: spec example A, path `"a"`, array `[1,2,3,2]`, value set
`[2,3]`: the scan captures ids 1, 2, 3 and apply leaves `[1]`. -/
theorem apply_removes_scanned_matches_witness :
    (ModifierPullAll.prepare ⟨⟨["a"]⟩, 0, [⟨"0", BSONValue.vint 2⟩, ⟨"1", BSONValue.vint 3⟩]⟩
        (BSONValue.vdoc [("a", BSONValue.varr
          [BSONValue.vint 1, BSONValue.vint 2, BSONValue.vint 3, BSONValue.vint 2])]) ""
        ⟨false, false, none⟩).2.2.1.elementsToRemove =
      collectToRemove ((ModifierPullAll.prepare
          ⟨⟨["a"]⟩, 0, [⟨"0", BSONValue.vint 2⟩, ⟨"1", BSONValue.vint 3⟩]⟩
          (BSONValue.vdoc [("a", BSONValue.varr
            [BSONValue.vint 1, BSONValue.vint 2, BSONValue.vint 3, BSONValue.vint 2])]) ""
          ⟨false, false, none⟩).2.1).elementsToFind
        [BSONValue.vint 1, BSONValue.vint 2, BSONValue.vint 3, BSONValue.vint 2] ∧
    (ModifierPullAll.apply
        (ModifierPullAll.prepare ⟨⟨["a"]⟩, 0, [⟨"0", BSONValue.vint 2⟩, ⟨"1", BSONValue.vint 3⟩]⟩
          (BSONValue.vdoc [("a", BSONValue.varr
            [BSONValue.vint 1, BSONValue.vint 2, BSONValue.vint 3, BSONValue.vint 2])]) ""
          ⟨false, false, none⟩).2.1
        (ModifierPullAll.prepare ⟨⟨["a"]⟩, 0, [⟨"0", BSONValue.vint 2⟩, ⟨"1", BSONValue.vint 3⟩]⟩
          (BSONValue.vdoc [("a", BSONValue.varr
            [BSONValue.vint 1, BSONValue.vint 2, BSONValue.vint 3, BSONValue.vint 2])]) ""
          ⟨false, false, none⟩).2.2.1
        (BSONValue.vdoc [("a", BSONValue.varr
          [BSONValue.vint 1, BSONValue.vint 2, BSONValue.vint 3, BSONValue.vint 2])])).1 =
      Status.OK ∧
    getValueAt ["a"]
        (ModifierPullAll.apply
          (ModifierPullAll.prepare ⟨⟨["a"]⟩, 0, [⟨"0", BSONValue.vint 2⟩, ⟨"1", BSONValue.vint 3⟩]⟩
            (BSONValue.vdoc [("a", BSONValue.varr
              [BSONValue.vint 1, BSONValue.vint 2, BSONValue.vint 3, BSONValue.vint 2])]) ""
            ⟨false, false, none⟩).2.1
          (ModifierPullAll.prepare ⟨⟨["a"]⟩, 0, [⟨"0", BSONValue.vint 2⟩, ⟨"1", BSONValue.vint 3⟩]⟩
            (BSONValue.vdoc [("a", BSONValue.varr
              [BSONValue.vint 1, BSONValue.vint 2, BSONValue.vint 3, BSONValue.vint 2])]) ""
            ⟨false, false, none⟩).2.2.1
          (BSONValue.vdoc [("a", BSONValue.varr
            [BSONValue.vint 1, BSONValue.vint 2, BSONValue.vint 3, BSONValue.vint 2])])).2.2 =
      some (BSONValue.varr
        ([BSONValue.vint 1, BSONValue.vint 2, BSONValue.vint 3, BSONValue.vint 2].filter (fun v =>
          !(matchesSet ((ModifierPullAll.prepare
              ⟨⟨["a"]⟩, 0, [⟨"0", BSONValue.vint 2⟩, ⟨"1", BSONValue.vint 3⟩]⟩
              (BSONValue.vdoc [("a", BSONValue.varr
                [BSONValue.vint 1, BSONValue.vint 2, BSONValue.vint 3, BSONValue.vint 2])]) ""
              ⟨false, false, none⟩).2.1).elementsToFind v)))) :=
  apply_removes_scanned_matches
    ⟨⟨["a"]⟩, 0, [⟨"0", BSONValue.vint 2⟩, ⟨"1", BSONValue.vint 3⟩]⟩
    (BSONValue.vdoc [("a", BSONValue.varr
      [BSONValue.vint 1, BSONValue.vint 2, BSONValue.vint 3, BSONValue.vint 2])]) ""
    ⟨false, false, none⟩ 0 ["a"]
    [BSONValue.vint 1, BSONValue.vint 2, BSONValue.vint 3, BSONValue.vint 2]
    (Or.inl rfl) (by decide)

theorem bindPS_pathFoundOk (m : ModifierPullAll) (mf : String) :
    (bindPS m mf).pathFoundOk = false := by
  unfold bindPS
  split <;> rfl

/-- C1: after a successful `prepare` and the matching `apply`, `log` decides
`pathExists` exactly as "the resolved element reference is valid and the
resolved depth equals the full part count"; when that holds it appends under
the caller's log root a `$set` entry mapping the full dotted path to the
post-apply value at the resolved reference — the remaining array, and the
reference is the full path — and otherwise it appends an `$unset` entry
mapping the full dotted path to boolean true. -/
theorem log_pathExists_set_else_unset (m : ModifierPullAll) (root : BSONValue)
    (mf : String) (ei : ExecInfo) (logRoot : List (String × BSONValue))
    (m' : ModifierPullAll) (ps : PreparedState) (ei' : ExecInfo)
    (st2 : Status) (ps2 : PreparedState) (doc : BSONValue)
    (hprep : ModifierPullAll.prepare m root mf ei = (Status.OK, m', ps, ei'))
    (happ : ModifierPullAll.apply m' ps root = (st2, ps2, doc)) :
    (ps2.pathFoundOk = true ∧ ps2.pathFoundIndex = m'.fieldRef.numParts - 1 →
      ps2.pathFoundRef = m'.fieldRef.parts ∧
      ∃ ws, getValueAt ps2.pathFoundRef doc = some (BSONValue.varr ws) ∧
        ModifierPullAll.log m' ps2 doc logRoot =
          (Status.OK, logRoot ++
            [("$set", BSONValue.vdoc [(m'.fieldRef.dottedField, BSONValue.varr ws)])])) ∧
    (¬(ps2.pathFoundOk = true ∧ ps2.pathFoundIndex = m'.fieldRef.numParts - 1) →
      ModifierPullAll.log m' ps2 doc logRoot =
        (Status.OK, logRoot ++
          [("$unset", BSONValue.vdoc [(m'.fieldRef.dottedField, BSONValue.vbool true)])])) := by
  have hps2 : ps2 = { ps with applyCalled := true } :=
    (congrArg (fun t => t.2.1) happ).symm
  have hdoc : doc = (ModifierPullAll.apply m' ps root).2.2 :=
    (congrArg (fun t => t.2.2) happ).symm
  refine ⟨?_, fun h => log_unset_entry m' ps2 doc logRoot h⟩
  rintro ⟨hpf, hidx⟩
  by_cases h1 : m.positionalPathIndex ≠ 0 ∧ mf = ""
  · rw [prepare_early m root mf ei h1.1 h1.2] at hprep
    have hst : (⟨ErrorCode.BadValue, "matched field not provided"⟩ : Status) = Status.OK :=
      congrArg (fun t => t.1) hprep
    exact absurd hst (by simp [Status.OK])
  · have h0 : m.positionalPathIndex = 0 ∨ mf ≠ "" := by
      by_cases hp : m.positionalPathIndex = 0
      · exact Or.inl hp
      · exact Or.inr (fun hmf => h1 ⟨hp, hmf⟩)
    rw [prepare_eq_resolve m root mf ei h0] at hprep
    cases hf : findLongestPrefix (bindM m mf).fieldRef root with
    | nonExistent =>
      rw [prepareResolve_nonexistent _ _ _ _ hf] at hprep
      simp only [Prod.mk.injEq] at hprep
      obtain ⟨_, _, hps, _⟩ := hprep
      rw [hps2, ← hps] at hpf
      have : (bindPS m mf).pathFoundOk = true := hpf
      rw [bindPS_pathFoundOk] at this
      cases this
    | notViable i ref v =>
      rw [prepareResolve_notviable _ _ _ _ i ref v hf] at hprep
      have hst := congrArg (fun t => t.1) hprep
      exact absurd hst (by simp [Status.OK])
    | found i ref v =>
      by_cases hv : v.isArray = false
      · rw [prepareResolve_found_nonarr _ _ _ _ i ref v hf hv] at hprep
        have hst := congrArg (fun t => t.1) hprep
        exact absurd hst (by simp [Status.OK])
      · cases v with
        | varr vs =>
          rw [prepareResolve_found_arr _ _ _ _ i ref vs
            (bindPS_elementsToRemove m mf) hf] at hprep
          have hm : m' = bindM m mf := by
            by_cases hid : (collectToRemove (bindM m mf).elementsToFind vs).isEmpty
            · rw [if_pos hid] at hprep
              exact (congrArg (fun t => t.2.1) hprep).symm
            · rw [if_neg hid] at hprep
              exact (congrArg (fun t => t.2.1) hprep).symm
          have hpseq : ps = { pathFoundIndex := i, pathFoundOk := true, pathFoundRef := ref, pathPositionalPart := (bindPS m mf).pathPositionalPart, applyCalled := (bindPS m mf).applyCalled, elementsToRemove := collectToRemove (bindM m mf).elementsToFind vs } := by
            by_cases hid : (collectToRemove (bindM m mf).elementsToFind vs).isEmpty
            · rw [if_pos hid] at hprep
              exact (congrArg (fun t => t.2.2.1) hprep).symm
            · rw [if_neg hid] at hprep
              exact (congrArg (fun t => t.2.2.1) hprep).symm
          subst hm
          obtain ⟨hget, hrefeq, hlt⟩ :=
            findLongestPrefix_found (bindM m mf).fieldRef root i ref (BSONValue.varr vs) hf
          have hpidx : i = (bindM m mf).fieldRef.numParts - 1 := by
            simp only [hps2, hpseq] at hidx
            exact hidx
          have hfull : i + 1 = (bindM m mf).fieldRef.parts.length := by
            unfold FieldRef.numParts at hpidx hlt
            omega
          have hrefall : ref = (bindM m mf).fieldRef.parts := by
            rw [hrefeq, hfull]
            exact List.take_length _
          have happly := apply_target_value (bindM m mf)
            { pathFoundIndex := i, pathFoundOk := true, pathFoundRef := ref, pathPositionalPart := (bindPS m mf).pathPositionalPart, applyCalled := (bindPS m mf).applyCalled, elementsToRemove := collectToRemove (bindM m mf).elementsToFind vs }
            root vs hget rfl
          refine ⟨?_, vs.filter (fun v => !(matchesSet (bindM m mf).elementsToFind v)), ?_, ?_⟩
          · simp only [hps2, hpseq]
            exact hrefall
          · rw [hdoc]
            simp only [hps2, hpseq]
            exact happly
          · refine log_set_entry (bindM m mf) ps2 doc logRoot _ hpf hidx ?_
            rw [hdoc]
            simp only [hps2, hpseq]
            exact happly
        | vint a => exact absurd rfl hv
        | vstr a => exact absurd rfl hv
        | vbool a => exact absurd rfl hv
        | vdoc a => exact absurd rfl hv

/-- C1 witness: spec example A after `prepare` and `apply`; the path exists,
so `log` emits a `$set` of `"a"` to the remaining array `[1]`. -/
theorem log_pathExists_set_else_unset_witness :
    ((⟨0, true, ["a"], "", true, [1, 2, 3]⟩ : PreparedState).pathFoundOk = true ∧
      (⟨0, true, ["a"], "", true, [1, 2, 3]⟩ : PreparedState).pathFoundIndex =
        (⟨⟨["a"]⟩, 0, [⟨"0", BSONValue.vint 2⟩, ⟨"1", BSONValue.vint 3⟩]⟩ : ModifierPullAll).fieldRef.numParts - 1 →
      (⟨0, true, ["a"], "", true, [1, 2, 3]⟩ : PreparedState).pathFoundRef =
        (⟨⟨["a"]⟩, 0, [⟨"0", BSONValue.vint 2⟩, ⟨"1", BSONValue.vint 3⟩]⟩ : ModifierPullAll).fieldRef.parts ∧
      ∃ ws, getValueAt (⟨0, true, ["a"], "", true, [1, 2, 3]⟩ : PreparedState).pathFoundRef
          (BSONValue.vdoc [("a", BSONValue.varr [BSONValue.vint 1])]) =
          some (BSONValue.varr ws) ∧
        ModifierPullAll.log ⟨⟨["a"]⟩, 0, [⟨"0", BSONValue.vint 2⟩, ⟨"1", BSONValue.vint 3⟩]⟩
            ⟨0, true, ["a"], "", true, [1, 2, 3]⟩
            (BSONValue.vdoc [("a", BSONValue.varr [BSONValue.vint 1])]) [] =
          (Status.OK,
            [] ++ [("$set", BSONValue.vdoc
              [((⟨⟨["a"]⟩, 0, [⟨"0", BSONValue.vint 2⟩, ⟨"1", BSONValue.vint 3⟩]⟩ : ModifierPullAll).fieldRef.dottedField,
                BSONValue.varr ws)])])) ∧
    (¬((⟨0, true, ["a"], "", true, [1, 2, 3]⟩ : PreparedState).pathFoundOk = true ∧
       (⟨0, true, ["a"], "", true, [1, 2, 3]⟩ : PreparedState).pathFoundIndex =
         (⟨⟨["a"]⟩, 0, [⟨"0", BSONValue.vint 2⟩, ⟨"1", BSONValue.vint 3⟩]⟩ : ModifierPullAll).fieldRef.numParts - 1) →
      ModifierPullAll.log ⟨⟨["a"]⟩, 0, [⟨"0", BSONValue.vint 2⟩, ⟨"1", BSONValue.vint 3⟩]⟩
          ⟨0, true, ["a"], "", true, [1, 2, 3]⟩
          (BSONValue.vdoc [("a", BSONValue.varr [BSONValue.vint 1])]) [] =
        (Status.OK,
          [] ++ [("$unset", BSONValue.vdoc
            [((⟨⟨["a"]⟩, 0, [⟨"0", BSONValue.vint 2⟩, ⟨"1", BSONValue.vint 3⟩]⟩ : ModifierPullAll).fieldRef.dottedField,
              BSONValue.vbool true)])])) :=
  log_pathExists_set_else_unset
    ⟨⟨["a"]⟩, 0, [⟨"0", BSONValue.vint 2⟩, ⟨"1", BSONValue.vint 3⟩]⟩
    (BSONValue.vdoc [("a", BSONValue.varr
      [BSONValue.vint 1, BSONValue.vint 2, BSONValue.vint 3, BSONValue.vint 2])]) ""
    ⟨false, false, none⟩ []
    ⟨⟨["a"]⟩, 0, [⟨"0", BSONValue.vint 2⟩, ⟨"1", BSONValue.vint 3⟩]⟩
    ⟨0, true, ["a"], "", false, [1, 2, 3]⟩ ⟨false, false, some ⟨["a"]⟩⟩
    Status.OK ⟨0, true, ["a"], "", true, [1, 2, 3]⟩
    (BSONValue.vdoc [("a", BSONValue.varr [BSONValue.vint 1])])
    (by decide) (by decide)
